import Mathlib

/-!
TermOx layouts: a shallow embedding.

Three headers of the repository are embedded here.

* `include/termox/widgets/layout.hpp`: `SizePolicy`, `LinearLayout` and its
  free functions `append`, `insert_at`, `remove`, `remove_at`, `remove_all`,
  followed by the sizing algorithm behind the `resize` functions that the
  header declares.
* `include/cppurses/widget/layouts/selecting.hpp`: the `Selecting` decorator.
* `include/ox/bordered.hpp`: `Bordered::resize` and `Bordered::paint`.

Vectors are lists, `std::size_t` values are natural numbers (the indices stay
far below `2^64`, so no operation wraps), `int` values are integers, and a C++
exception is an explicit error result. A loop whose number of iterations is
not bounded by the code takes a bound as an extra argument.
-/

namespace ox.widgets

/-- Modelled from the spec: the focus policy enum of `termox/widgets/widget.hpp`
(not part of the sources at hand), with the four values the spec lists. -/
inductive FocusPolicy where
  | None
  | Tab
  | Click
  | Strong
  deriving DecidableEq, Repr

/-- Modelled from the spec: the type-erased holder `Widget` of
`termox/widgets/widget.hpp` (not part of the sources at hand). It owns one
widget value, here of the payload type `α`, and carries a focus policy. -/
structure Widget (α : Type) where
  data : α
  focus_policy : FocusPolicy
  deriving DecidableEq, Repr

/-- The value of `std::numeric_limits<int>::max()` for a 32 bit `int`. -/
def INT_MAX : Int := 2147483647

/-- Policy for how a widget should be sized by its parent layout
(`layout.hpp`, lines 20-53). The `float` flexibility is kept as the rational
number it denotes. -/
structure SizePolicy where
  minimum : Int
  maximum : Int
  flexibility : Rat
  deriving DecidableEq, Repr

/-- The default member initialisers of `SizePolicy`, that is `SizePolicy{}`. -/
instance : Inhabited SizePolicy := ⟨{ minimum := 0, maximum := INT_MAX, flexibility := 1 }⟩

namespace SizePolicy

def fixed (size : Int) : SizePolicy :=
  { minimum := size, maximum := size, flexibility := 0 }

def flex (flex : Rat) : SizePolicy :=
  { minimum := 0, maximum := INT_MAX, flexibility := flex }

def bounded (min max : Int) : SizePolicy :=
  { minimum := min, maximum := max, flexibility := 1 }

def min (min : Int) : SizePolicy :=
  { minimum := min, maximum := INT_MAX, flexibility := 1 }

def max (max : Int) : SizePolicy :=
  { minimum := 0, maximum := max, flexibility := 1 }

end SizePolicy

/-- A layout that arranges its children in a line (`layout.hpp`, lines 59-72):
two parallel vectors. -/
structure LinearLayout (α : Type) where
  children : List (Widget α)
  size_policies : List SizePolicy
  deriving DecidableEq, Repr

/-- The variadic constructor of `LinearLayout` (lines 60-68): one default size
policy per argument, then one child emplaced per argument, in order. A child
built from the widget value alone gets the focus policy `None`, the default
that `append` and `insert_at` use as well. -/
def LinearLayout.ctor {α : Type} (children_ : List α) : LinearLayout α :=
  { size_policies := List.replicate children_.length default
    children := children_.map (fun t => { data := t, focus_policy := FocusPolicy.None }) }

/-- The exception thrown by `remove` and `remove_at`. -/
inductive Exception where
  | out_of_range (what : String)
  deriving DecidableEq, Repr

deriving instance DecidableEq for Except

/-- What a `Widget const&` argument designates, as far as the address
comparison of `remove` can tell: the object in slot `i` of the layout's own
`children` storage, or an object that lives elsewhere. -/
inductive WidgetRef where
  | slot (i : Nat)
  | elsewhere
  deriving DecidableEq, Repr

/-- Function `append` (lines 95-107): push the policy, then emplace the child at
the back. The reference it returns designates the data of the last child. -/
def append {α : Type} (layout : LinearLayout α) (t : α) (size_policy : SizePolicy)
    (focus_policy : FocusPolicy) : LinearLayout α :=
  { size_policies := layout.size_policies ++ [size_policy]
    children := layout.children ++ [{ data := t, focus_policy := focus_policy }] }

/-- Function `insert_at` (lines 121-142). -/
def insert_at {α : Type} (layout : LinearLayout α) (index : Nat) (t : α)
    (size_policy : SizePolicy) (focus_policy : FocusPolicy) : LinearLayout α :=
  if index ≥ layout.children.length then
    append layout t size_policy focus_policy
  else
    { size_policies := layout.size_policies.insertIdx index size_policy
      children := layout.children.insertIdx index { data := t, focus_policy := focus_policy } }

/-- The search of `remove` (lines 155-157): `find_if` over the children, each
projected to its address, for the address of `w`. The result is the position
of the first child whose address is that of `w`, if there is one. -/
def find_if {α : Type} (layout : LinearLayout α) (w : WidgetRef) :
    Option (Fin layout.children.length) :=
  (List.finRange layout.children.length).find? (fun i => decide (w = WidgetRef.slot i.val))

/-- Function `remove` (lines 153-168). The result pairs what the call yields,
the removed widget or the exception, with the layout as the call leaves it. -/
def remove {α : Type} (layout : LinearLayout α) (w : WidgetRef) :
    Except Exception (Widget α) × LinearLayout α :=
  match find_if layout w with
  | none => (.error (.out_of_range "remove: Widget not found in layout"), layout)
  | some index =>
    (.ok layout.children[index],
      { size_policies := layout.size_policies.eraseIdx index.val
        children := layout.children.eraseIdx index.val })

/-- Function `remove_at` (lines 170-182). The result pairs what the call
yields with the layout as the call leaves it. -/
def remove_at {α : Type} (layout : LinearLayout α) (index : Nat) :
    Except Exception (Widget α) × LinearLayout α :=
  if h : index ≥ layout.children.length then
    (.error (.out_of_range "remove_at: index out of range"), layout)
  else
    have h1 : index < layout.children.length := Nat.lt_of_not_ge h
    (.ok layout.children[index],
      { size_policies := layout.size_policies.eraseIdx index
        children := layout.children.eraseIdx index })

/-- Function `remove_all` (lines 184-190): the removed children and the emptied
layout. -/
def remove_all {α : Type} (layout : LinearLayout α) : List (Widget α) × LinearLayout α :=
  (layout.children, { children := [], size_policies := [] })

/-- The lockstep invariant of a `LinearLayout`. -/
def LinearLayout.aligned {α : Type} (layout : LinearLayout α) : Prop :=
  layout.children.length = layout.size_policies.length

instance {α : Type} (layout : LinearLayout α) : Decidable layout.aligned := by
  unfold LinearLayout.aligned; infer_instance

/-- Modelled from the spec: a child during the distribution of length, with
its policy `(min_i, max_i, flex_i)` and the extent `current_i` it holds so
far. -/
structure Sized where
  policy : SizePolicy
  current : Int
  deriving DecidableEq, Repr

/-- Modelled from the spec: a child takes part in the distribution while it is
below its maximum and its flexibility is positive
("at least one child has `current_i < max_i` and `flex_i > 0`"). -/
def Sized.active (c : Sized) : Bool :=
  decide (c.current < c.policy.maximum) && decide (0 < c.policy.flexibility)

/-- Modelled from the spec: the sum of the extents held so far. -/
def total (cs : List Sized) : Int := (cs.map Sized.current).sum

/-- Modelled from the spec: the sum of the flexibilities of the active children
("Σ(active flex)"). -/
def active_flex (cs : List Sized) : Rat :=
  ((cs.filter Sized.active).map (fun c => c.policy.flexibility)).sum

/-- Modelled from the spec: the proportional share of one child in a pass,
`remaining * flex_i / Σ(active flex)` rounded down, for an active child and as
far as the child can absorb it; nothing for a child that is not active. -/
def share (remaining : Int) (flex_sum : Rat) (c : Sized) : Int :=
  if c.active then
    min ⌊(remaining : Rat) * (c.policy.flexibility / flex_sum)⌋ (c.policy.maximum - c.current)
  else 0

/-- Modelled from the spec: the single proportional pass over the children. -/
def proportional (remaining : Int) (flex_sum : Rat) (cs : List Sized) : List Sized :=
  cs.map (fun c => { c with current := c.current + share remaining flex_sum c })

/-- Modelled from the spec: the leftover units of a pass go "to the earliest
children in order", one unit to each child that can still absorb one, until
nothing remains. The result is what remains and the children. -/
def leftover : Int → List Sized → Int × List Sized
  | remaining, [] => (remaining, [])
  | remaining, c :: cs =>
    if 0 < remaining ∧ c.active then
      ((leftover (remaining - 1) cs).1,
        { c with current := c.current + 1 } :: (leftover (remaining - 1) cs).2)
    else ((leftover remaining cs).1, c :: (leftover remaining cs).2)

/-- Modelled from the spec: one pass of step 2 of the sizing algorithm, the
proportional pass followed by the leftover units. -/
def pass (remaining : Int) (cs : List Sized) : Int × List Sized :=
  let shared := proportional remaining (active_flex cs) cs
  leftover (remaining - (total shared - total cs)) shared

/-- Modelled from the spec: step 2 of the sizing algorithm, "while
`remaining > 0` and at least one child has `current_i < max_i` and
`flex_i > 0`". The first argument bounds the number of passes; a pass hands
out at least one unit, so `remaining` passes are enough. -/
def distribute : Nat → Int → List Sized → List Sized
  | 0, _, cs => cs
  | fuel + 1, remaining, cs =>
    if 0 < remaining ∧ cs.any Sized.active then
      distribute fuel (pass remaining cs).1 (pass remaining cs).2
    else cs

/-- Modelled from the spec: step 3, the final extent of a child clamped to
`[min_i, max_i]`. -/
def Sized.extent (c : Sized) : Int :=
  max c.policy.minimum (min c.current c.policy.maximum)

/-- Modelled from the spec: the sizing algorithm of section 4.2 for the primary
axis, the body of `resize(HLayout&, Area)` and `resize(VLayout&, Area)`, which
`layout.hpp` only declares (lines 214 and 232). Given the size policies of the
children in order and the available length, it returns the extent of each
child: every child starts at its minimum, `remaining` is the length left over
(zero if negative), step 2 distributes it, and step 3 clamps every extent to
`[min_i, max_i]`, also when the length is below the sum of the minima. -/
def resize_extents (size_policies : List SizePolicy) (length : Int) : List Int :=
  let start := size_policies.map (fun p => ({ policy := p, current := p.minimum } : Sized))
  let remaining := max 0 (length - total start)
  (distribute remaining.toNat remaining start).map Sized.extent

/-- Modelled from the spec: `resize` of a linear layout along its primary
axis, the extents it assigns to the children of the layout. -/
def resize {α : Type} (layout : LinearLayout α) (length : Int) : List Int :=
  resize_extents layout.size_policies length

end ox.widgets

namespace cppurses

/-- Modelled from the spec: `cppurses::Area` (not part of the sources at
hand), the width and height that `resize_event` receives. -/
structure Area where
  width : Nat
  height : Nat
  deriving DecidableEq, Repr

namespace layout

/-- Modelled from the spec: a child widget of the wrapped layout
(`Layout_t::Child_t`, not part of the sources at hand). `id` stands for the
identity of the widget object, the address that `erase(Widget const*)`
compares; `enabled` is what `is_enabled()` reports; `selected` records the
notifications received: `select()` sets it and `unselect()` clears it. -/
structure Child where
  id : Nat
  enabled : Bool
  selected : Bool
  deriving DecidableEq, Repr

def Child.select (c : Child) : Child := { c with selected := true }

def Child.unselect (c : Child) : Child := { c with selected := false }

/-- Modelled from the spec: the geometry rule of the wrapped layout (not part
of the sources at hand). From the area last given to the layout, the viewport
offset and the identities of the children in order, it tells whether the child
at a position lies inside the visible viewport, the flag `is_enabled()` then
reports. It is a parameter of the model. -/
abbrev Geometry := Area → Nat → List Nat → Nat → Bool

/-- A geometry for the witnesses: every child is one row high in a vertical
layout, so the children at positions `offset .. offset + height - 1` are
visible. -/
def rows : Geometry := fun a offset _ i => decide (offset ≤ i ∧ i < offset + a.height)

/-- Modelled from the spec: the state of the wrapped layout `Layout_t` that
`Selecting` reads and writes (not part of the sources at hand): the children in
order, the viewport offset, and the area of the last resize. -/
structure Layout_t where
  children : List Child
  offset : Nat
  area : Area
  deriving DecidableEq, Repr

/-- Class `Selecting` (`selecting.hpp`, lines 21-286): the wrapped layout, the
selected index and the four key sets. A `Key::Code` is a natural number. -/
structure Selecting extends Layout_t where
  selected_ : Nat
  increment_selection_keys_ : List Nat
  decrement_selection_keys_ : List Nat
  increment_scroll_keys_ : List Nat
  decrement_scroll_keys_ : List Nat
  deriving DecidableEq, Repr

/-- How a member function can fail to return a state: the `std::runtime_error`
of `selected_child()`, carrying the two numbers of its message, or a loop that
is still iterating when the iteration bound given to the model is used up. -/
inductive Fault where
  | runtime_error (selected_ child_count : Nat)
  | running
  deriving DecidableEq, Repr

namespace Selecting

/-- Modelled from the spec: `Layout_t::child_count()`. -/
def child_count (s : Selecting) : Nat := s.children.length

/-- Modelled from the spec: `Layout_t::child_offset()`, the viewport offset. -/
def child_offset (s : Selecting) : Nat := s.offset

/-- Modelled from the spec: `children_.get_offset()`, the viewport offset. -/
def get_offset (s : Selecting) : Nat := s.offset

/-- Modelled from the spec: `Layout_t::update_geometry()`, which recomputes
the enabled flag of every child from the geometry rule. -/
def update_geometry (g : Geometry) (s : Selecting) : Selecting :=
  let ids := s.children.map Child.id
  { s with children := s.children.enum.map (fun ic => { ic.2 with enabled := g s.area s.offset ids ic.1 }) }

/-- Modelled from the spec: `Layout_t::set_offset`, which stores the offset
and recomputes the geometry: "after any mutation" the enabled flag "is kept
consistent with whether it lies within the scrolled viewport" (section 3). -/
def set_offset (g : Geometry) (s : Selecting) (index : Nat) : Selecting :=
  update_geometry g { s with offset := index }

/-- Modelled from the spec: what the wrapped layout does with its own state
once a child is gone: the viewport offset "cannot exceed `child_count - 1`"
(section 4.3) and is "clamped to remaining child count" (section 8), so it is
lowered to the last remaining child if it was past it, and the geometry is
recomputed (section 3). -/
def Layout_t_after_erase (g : Geometry) (s : Selecting) (children : List Child) : Selecting :=
  update_geometry g { s with children := children, offset := min s.offset (children.length - 1) }

/-- Modelled from the spec: `Layout_t::erase(std::size_t)`, which removes the
child at the index and keeps the other children in order. -/
def Layout_t_erase_index (g : Geometry) (s : Selecting) (index : Nat) : Selecting :=
  Layout_t_after_erase g s (s.children.eraseIdx index)

/-- Modelled from the spec: `Layout_t::erase(Widget const*)`, which removes the
child with that identity and keeps the other children in order. -/
def Layout_t_erase_child (g : Geometry) (s : Selecting) (child : Nat) : Selecting :=
  Layout_t_after_erase g s (s.children.eraseP (fun c => decide (c.id = child)))

/-- Modelled from the spec: `Layout_t::resize_event`, which records the new
area and recomputes the geometry. -/
def Layout_t_resize_event (g : Geometry) (s : Selecting) (new_size : Area) : Selecting :=
  update_geometry g { s with area := new_size }

/-- The non-const `selected_child()` (lines 76-85). -/
def selected_child (s : Selecting) : Except Fault Child :=
  if h : s.selected_ ≥ s.child_count then
    .error (.runtime_error s.selected_ s.child_count)
  else
    have h1 : s.selected_ < s.children.length := Nat.lt_of_not_ge h
    .ok s.children[s.selected_]

/-- The call `selected_child().select()`. -/
def selected_child_select (s : Selecting) : Except Fault Selecting :=
  if s.selected_ ≥ s.child_count then
    .error (.runtime_error s.selected_ s.child_count)
  else
    .ok { s with children := s.children.modify Child.select s.selected_ }

/-- The call `selected_child().unselect()`. -/
def selected_child_unselect (s : Selecting) : Except Fault Selecting :=
  if s.selected_ ≥ s.child_count then
    .error (.runtime_error s.selected_ s.child_count)
  else
    .ok { s with children := s.children.modify Child.unselect s.selected_ }

/-- Function `set_selected` (lines 257-263). -/
def set_selected (s : Selecting) (index : Nat) : Except Fault Selecting := do
  let s1 ← if s.selected_ < s.child_count then s.selected_child_unselect else pure s
  selected_child_select { s1 with selected_ := index }

/-- Function `find_bottom_row` (lines 267-278): the loop runs `i` from
`offset + 1` up to `count - 1` and returns `i - 1` at the first child that is
not enabled; without such a child it returns `offset`. -/
def find_bottom_row (s : Selecting) : Nat :=
  let count := s.child_count
  let offset := s.child_offset
  match (List.range' (offset + 1) (count - (offset + 1))).find?
      (fun i => !((s.children.map Child.enabled).getD i true)) with
  | some i => i - 1
  | none => offset

/-- Function `contains` (lines 281-285). -/
def contains (key : Nat) (codes : List Nat) : Bool := codes.any (fun k => k == key)

/-- Function `increment_selected` (lines 193-198). -/
def increment_selected (s : Selecting) : Except Fault Selecting :=
  if s.child_count = 0 ∨ s.selected_ + 1 = s.child_count then pure s
  else s.set_selected (s.selected_ + 1)

/-- Function `decrement_selected` (lines 209-214). -/
def decrement_selected (s : Selecting) : Except Fault Selecting :=
  if s.child_count = 0 ∨ s.selected_ = 0 then pure s
  else s.set_selected (s.selected_ - 1)

/-- Function `increment_offset` (lines 224-231). -/
def increment_offset (g : Geometry) (s : Selecting) : Selecting :=
  let child_n := s.child_count
  if child_n = 0 then s
  else if s.child_offset + 1 ≠ child_n then s.set_offset g (s.child_offset + 1) else s

/-- Function `decrement_offset` (lines 240-246). -/
def decrement_offset (g : Geometry) (s : Selecting) : Selecting :=
  if s.child_count = 0 then s
  else if s.child_offset ≠ 0 then s.set_offset g (s.child_offset - 1) else s

/-- The `while` loop of `increment_selected_and_scroll_if_necessary` (lines
203-206). The first argument bounds the number of iterations the model
follows; when the bound is used up with the loop condition still true the
result is `Fault.running`. -/
def scroll_loop (g : Geometry) : Nat → Selecting → Except Fault Selecting
  | 0, s => do
    let c ← s.selected_child
    if !c.enabled then .error .running else pure s
  | n + 1, s => do
    let c ← s.selected_child
    if !c.enabled then scroll_loop g n (update_geometry g (s.increment_offset g)) else pure s

/-- Function `increment_selected_and_scroll_if_necessary` (lines 200-207). -/
def increment_selected_and_scroll_if_necessary (g : Geometry) (fuel : Nat) (s : Selecting) :
    Except Fault Selecting := do
  let s1 ← s.increment_selected
  scroll_loop g fuel s1

/-- Function `decrement_selected_and_scroll_if_necessary` (lines 216-221). -/
def decrement_selected_and_scroll_if_necessary (g : Geometry) (s : Selecting) :
    Except Fault Selecting := do
  let s1 ← s.decrement_selected
  let c ← s1.selected_child
  if !c.enabled then pure (s1.decrement_offset g) else pure s1

/-- Function `increment_offset_and_increment_selected` (lines 233-237). -/
def increment_offset_and_increment_selected (g : Geometry) (s : Selecting) :
    Except Fault Selecting :=
  (s.increment_offset g).increment_selected

/-- Function `decrement_offset_and_decrement_selected` (lines 248-254). -/
def decrement_offset_and_decrement_selected (g : Geometry) (s : Selecting) :
    Except Fault Selecting :=
  if s.child_offset = 0 then pure s
  else (s.decrement_offset g).decrement_selected

/-- Function `key_press_event` (lines 122-133). The value it returns is that of
`Layout_t::key_press_event`, which is not modelled; the result here is the
state the handler leaves. -/
def key_press_event (g : Geometry) (fuel : Nat) (s : Selecting) (key : Nat) :
    Except Fault Selecting :=
  if contains key s.increment_selection_keys_ then
    s.increment_selected_and_scroll_if_necessary g fuel
  else if contains key s.decrement_selection_keys_ then
    s.decrement_selected_and_scroll_if_necessary g
  else if contains key s.increment_scroll_keys_ then
    s.increment_offset_and_increment_selected g
  else if contains key s.decrement_scroll_keys_ then
    s.decrement_offset_and_decrement_selected g
  else pure s

/-- Function `erase(std::size_t)` (lines 113-119). -/
def erase_index (g : Geometry) (s : Selecting) (index : Nat) : Except Fault Selecting :=
  let was_selected := decide (s.selected_ = index)
  let s1 := s.Layout_t_erase_index g index
  if was_selected ∧ s1.child_count > 0 then s1.set_selected s1.get_offset else pure s1

/-- Function `erase(Widget const*)` (lines 104-110). -/
def erase_child (g : Geometry) (s : Selecting) (child : Nat) : Except Fault Selecting := do
  let c ← s.selected_child
  let was_selected := decide (c.id = child)
  let s1 := s.Layout_t_erase_child g child
  if was_selected ∧ s1.child_count > 0 then s1.set_selected s1.get_offset else pure s1

/-- Function `erase(Unary_predicate&&)` (lines 93-101): `find` yields the first
child that satisfies the predicate, or a null pointer. -/
def erase_pred (g : Geometry) (s : Selecting) (pred : Child → Bool) :
    Except Fault (Bool × Selecting) :=
  match s.children.find? pred with
  | none => pure (false, s)
  | some child => do
    let s1 ← s.erase_child g child.id
    pure (true, s1)

/-- Function `reset_selected_if_necessary` (lines 145-152). -/
def reset_selected_if_necessary (s : Selecting) : Except Fault Selecting :=
  if s.child_count = 0 then pure s
  else do
    let c ← s.selected_child
    if c.enabled then pure s else s.set_selected s.find_bottom_row

/-- Function `resize_event` (lines 136-142). -/
def resize_event (g : Geometry) (s : Selecting) (new_size : Area) : Except Fault Selecting :=
  reset_selected_if_necessary (Layout_t_resize_event g s new_size)

/-- Function `focus_in_event` (lines 154-160). -/
def focus_in_event (s : Selecting) : Except Fault Selecting := do
  let s1 ← s.reset_selected_if_necessary
  if s1.child_count ≠ 0 then s1.selected_child_select else pure s1

/-- Function `focus_out_event` (lines 162-169); the template argument
`unselect_on_focus_out` is its first argument. -/
def focus_out_event (unselect_on_focus_out : Bool) (s : Selecting) : Except Fault Selecting :=
  if unselect_on_focus_out then
    if s.child_count ≠ 0 then s.selected_child_unselect else pure s
  else pure s

/-- Function `disable_event` (lines 171-176). -/
def disable_event (s : Selecting) : Except Fault Selecting :=
  if s.child_count ≠ 0 then s.selected_child_unselect else pure s

/-- Function `enable_event` (lines 178-183); `has_focus` is the value of
`System::focus_widget() == this`. -/
def enable_event (has_focus : Bool) (s : Selecting) : Except Fault Selecting :=
  if s.child_count ≠ 0 ∧ has_focus then s.selected_child_select else pure s

end Selecting

/-- The events of a `Selecting` layout that move or re-validate the selection. -/
inductive Event where
  | key_press (key : Nat)
  | erase_index (index : Nat)
  | erase_child (child : Nat)
  | erase_pred (pred : Child → Bool)
  | resize (new_size : Area)
  | focus_in
  | focus_out
  | enable (has_focus : Bool)
  | disable

/-- One event handled by a `Selecting` layout. -/
def handle (g : Geometry) (unselect_on_focus_out : Bool) (fuel : Nat) (s : Selecting) :
    Event → Except Fault Selecting
  | .key_press key => s.key_press_event g fuel key
  | .erase_index index => s.erase_index g index
  | .erase_child child => s.erase_child g child
  | .erase_pred pred => (s.erase_pred g pred).map Prod.snd
  | .resize new_size => s.resize_event g new_size
  | .focus_in => s.focus_in_event
  | .focus_out => s.focus_out_event unselect_on_focus_out
  | .enable has_focus => s.enable_event has_focus
  | .disable => s.disable_event

/-- A sequence of events handled in order; it stops at the first one that does
not return. -/
def handle_all (g : Geometry) (unselect_on_focus_out : Bool) (fuel : Nat) :
    Selecting → List Event → Except Fault Selecting
  | s, [] => pure s
  | s, e :: es => do
    let s1 ← handle g unselect_on_focus_out fuel s e
    handle_all g unselect_on_focus_out fuel s1 es

/-- The positions of the children that are flagged selected. -/
def flagged (s : Selecting) : List Nat :=
  (s.children.enum.filter (fun ic => ic.2.selected)).map Prod.fst

end layout
end cppurses

namespace ox.widgets

/-- The words of the spec for the end of the sequence: the widget becomes the
last child and the policy the last size policy, the earlier entries as they
were. -/
def appended_at_the_end {α : Type} (before after : LinearLayout α) (t : α)
    (p : SizePolicy) (f : FocusPolicy) : Prop :=
  after.children = before.children ++ [{ data := t, focus_policy := f }] ∧
  after.size_policies = before.size_policies ++ [p]

end ox.widgets

namespace cppurses.layout
namespace Selecting

/-- Whether `selected_child().is_enabled()` returns true; false when the call
does not return. -/
def selected_is_enabled (s : Selecting) : Bool :=
  match s.selected_child with
  | .ok c => c.enabled
  | .error _ => false

/-- The state after `n` iterations of the body of the scroll loop (lines
204-205), whatever the loop condition says. -/
def scroll_steps (g : Geometry) : Nat → Selecting → Selecting
  | 0, s => s
  | n + 1, s => scroll_steps g n (update_geometry g (s.increment_offset g))

end Selecting
end cppurses.layout

namespace cppurses.layout

/-- A layout of `n` one-row children with identities `100, 101, ...`, shown in
a viewport of `height` rows from `offset` on, with the selected index `sel`,
no child flagged selected, and the keys 1, 2, 3, 4 for increment-select,
decrement-select, increment-scroll and decrement-scroll. -/
def sample (n offset sel height : Nat) : Selecting :=
  { children := (List.range n).map (fun i =>
      { id := 100 + i, enabled := rows ⟨80, height⟩ offset [] i, selected := false })
    offset := offset
    area := ⟨80, height⟩
    selected_ := sel
    increment_selection_keys_ := [1]
    decrement_selection_keys_ := [2]
    increment_scroll_keys_ := [3]
    decrement_scroll_keys_ := [4] }

end cppurses.layout

namespace ox.widgets

/-- Every child holds an extent between its minimum and its maximum. -/
def within_bounds (cs : List Sized) : Prop :=
  ∀ c ∈ cs, c.policy.minimum ≤ c.current ∧ c.current ≤ c.policy.maximum

end ox.widgets

namespace cppurses.layout
namespace Selecting

/-- The const `selected_child()` (lines 70-73). It makes no range check; the
access `get_children()[selected_]` is defined only for an index in range,
which the argument `h` records. -/
def selected_child_const (s : Selecting) (h : s.selected_ < s.child_count) : Child :=
  have h1 : s.selected_ < s.children.length := h
  s.children[s.selected_]

/-- How a call of the const `selected_child()` ends: it returns a child, it
throws the `std::runtime_error` of the checking overload, or the access is
out of the bounds of the children and the language leaves the behaviour
undefined. -/
inductive Access where
  | returned (c : Child)
  | runtime_error (selected_ child_count : Nat)
  | undefined
  deriving DecidableEq, Repr

/-- The const `selected_child()` (lines 70-73) on every state: the body is the
single statement `return this->get_children()[selected_];`, with no test of
`selected_` and no `throw`. -/
def selected_child_const_access (s : Selecting) : Access :=
  if h : s.selected_ < s.children.length then .returned s.children[s.selected_]
  else .undefined

end Selecting

/-- Three visible children with the second one selected, as `sample`, except
that the key 1 belongs to the increment-select set and to the
decrement-select set. -/
def overlapping : Selecting :=
  { sample 3 0 1 3 with decrement_selection_keys_ := [1, 2] }

end cppurses.layout

namespace ox

/-- Modelled from the spec: `ox::Point` of `ox/core/core.hpp` (not part of the
sources at hand), a pair of `int` coordinates. -/
structure Point where
  x : Int
  y : Int
  deriving DecidableEq, Repr

/-- Modelled from the spec: `ox::Area` of `ox/core/core.hpp` (not part of the
sources at hand), an `int` width and an `int` height. -/
structure Area where
  width : Int
  height : Int
  deriving DecidableEq, Repr

/-- The value an `int` holds after an operation whose exact result is `v`: the
representative of `v` modulo `2^32` in the range of a 32 bit `int`. It is `v`
itself for every `v` in that range. -/
def wrap_int (v : Int) : Int := (v + 2147483648) % 4294967296 - 2147483648

/-- Modelled from the spec: `Painter::Box` of `ox/core/core.hpp` (not part of
the sources at hand), as far as `Bordered` writes it: its size. -/
structure Box where
  size : Area
  deriving DecidableEq, Repr

/-- Modelled from the spec: `Label::Align` of `ox/label.hpp` (not part of the
sources at hand). -/
inductive Align where
  | Left
  | Center
  | Right
  deriving DecidableEq, Repr

/-- Modelled from the spec: `Label` of `ox/label.hpp` (not part of the sources
at hand), as far as `Bordered` reads it: the text and the alignment. The text
is a `std::string`, kept here as the list of its bytes, which is what
`std::string_view::substr` counts. -/
structure Label where
  text : List Nat
  align : Align
  deriving DecidableEq, Repr

/-- Struct `Border` (`bordered.hpp`, lines 9-39). -/
structure Border where
  box : Box
  label : Label
  deriving DecidableEq, Repr

/-- Modelled from the spec: the `Widget` base of `ox/widget.hpp` (not part of
the sources at hand) as `Bordered` uses it on its child: the origin `at`
(named `at_` here), the size, and the state `data` of the concrete child
widget. -/
structure ChildWidget (σ : Type) where
  at_ : Point
  size : Area
  data : σ
  deriving DecidableEq, Repr

/-- Class `Bordered` (`bordered.hpp`, lines 44-104). -/
structure Bordered (σ : Type) where
  child : ChildWidget σ
  border : Border
  deriving DecidableEq, Repr

/-- Function `Bordered::resize` (lines 56-65). The first argument is the
child's own `resize`, which `ChildWidget` declares elsewhere; it receives the
child and the area passed to it. -/
def Bordered.resize {σ : Type} (child_resize : ChildWidget σ → Area → ChildWidget σ)
    (b : Bordered σ) (new_size : Area) : Bordered σ :=
  let border : Border := { b.border with box := { b.border.box with size := new_size } }
  let moved : ChildWidget σ := { b.child with at_ := { x := 1, y := 1 } }
  let sized : ChildWidget σ := { moved with size :=
    { width := max 0 (wrap_int (new_size.width - 2))
      height := max 0 (wrap_int (new_size.height - 2)) } }
  { child := child_resize sized sized.size, border := border }

/-- A child `resize` as in `examples/widgets.cpp` (line 58): it stores the
area it is given as the size of the widget. -/
def store_size {σ : Type} (c : ChildWidget σ) (a : Area) : ChildWidget σ :=
  { c with size := a }

end ox

namespace ox

/-- Modelled from the spec: `Glyph` of `ox/core/core.hpp` (not part of the
sources at hand), one cell of the character grid, as far as its symbol goes:
the code of the character shown there. -/
structure Glyph where
  symbol : Nat
  deriving DecidableEq, Repr

/-- Modelled from the spec: the conversion `std::string_view | Brush` of line
76 (not part of the sources at hand), which makes the glyphs of a run of
bytes. It is a parameter of the model: the functions of `paint` take it as
their first argument. -/
abbrev Glyphs := List Nat → List Glyph

/-- A conversion for the witnesses, for text in ASCII: every byte is one
character and makes one glyph. -/
def ascii_glyphs : Glyphs := fun bytes => bytes.map (fun b => { symbol := b })

end ox

namespace ox.widgets

/-! ## LinearLayout: the children and the size policies move in lockstep -/

theorem aligned_append {α : Type} (layout : LinearLayout α) (h : layout.aligned) (t : α)
    (p : SizePolicy) (f : FocusPolicy) : (append layout t p f).aligned := by
  unfold LinearLayout.aligned at *
  simp [append, h]

theorem aligned_insert_at {α : Type} (layout : LinearLayout α) (h : layout.aligned) (i : Nat)
    (t : α) (p : SizePolicy) (f : FocusPolicy) : (insert_at layout i t p f).aligned := by
  unfold insert_at
  split
  · exact aligned_append layout h t p f
  · rename_i hi
    unfold LinearLayout.aligned at *
    have h1 : i ≤ layout.children.length := by omega
    have h2 : i ≤ layout.size_policies.length := by omega
    simp [List.length_insertIdx _ _ h1, List.length_insertIdx _ _ h2, h]

theorem aligned_eraseIdx {α : Type} (layout : LinearLayout α) (h : layout.aligned) (i : Nat) :
    LinearLayout.aligned
      { size_policies := layout.size_policies.eraseIdx i
        children := layout.children.eraseIdx i } := by
  unfold LinearLayout.aligned at *
  simp [List.length_eraseIdx, h]

theorem aligned_remove_at {α : Type} (layout : LinearLayout α) (h : layout.aligned) (i : Nat) :
    (remove_at layout i).2.aligned := by
  unfold remove_at
  split
  · exact h
  · exact aligned_eraseIdx layout h i

theorem aligned_remove {α : Type} (layout : LinearLayout α) (h : layout.aligned)
    (w : WidgetRef) : (remove layout w).2.aligned := by
  unfold remove
  split
  · exact h
  · exact aligned_eraseIdx layout h _

/-- C1. Starting from a layout whose `children` and `size_policies` have equal
length, each of `append`, `insert_at` (any index), `remove_at` (any index,
the failing ones included), `remove` (any reference, found or not) and
`remove_all` leaves a layout whose two sequences have equal length; the
variadic constructor builds such a layout as well. -/
theorem lockstep_preserved {α : Type} (layout : LinearLayout α) (h : layout.aligned) :
    (∀ (t : α) (p : SizePolicy) (f : FocusPolicy),
        (append layout t p f).children.length = (append layout t p f).size_policies.length) ∧
    (∀ (i : Nat) (t : α) (p : SizePolicy) (f : FocusPolicy),
        (insert_at layout i t p f).children.length
          = (insert_at layout i t p f).size_policies.length) ∧
    (∀ i : Nat, (remove_at layout i).2.children.length
        = (remove_at layout i).2.size_policies.length) ∧
    (∀ w : WidgetRef, (remove layout w).2.children.length
        = (remove layout w).2.size_policies.length) ∧
    (remove_all layout).2.children.length = (remove_all layout).2.size_policies.length ∧
    (∀ ws : List α, (LinearLayout.ctor ws).children.length
        = (LinearLayout.ctor ws).size_policies.length) :=
  ⟨fun t p f => aligned_append layout h t p f,
   fun i t p f => aligned_insert_at layout h i t p f,
   fun i => aligned_remove_at layout h i,
   fun w => aligned_remove layout h w,
   rfl,
   fun ws => by simp [LinearLayout.ctor]⟩

/-- The lockstep theorem applied to a layout of two children, among others
at a `remove_at` that fails and at a `remove` that finds nothing. -/
theorem lockstep_preserved_witness :
    (LinearLayout.ctor [10, 20]).aligned ∧
    (remove_at (LinearLayout.ctor [10, 20]) 7).2.children.length
      = (remove_at (LinearLayout.ctor [10, 20]) 7).2.size_policies.length ∧
    (remove (LinearLayout.ctor [10, 20]) WidgetRef.elsewhere).2.children.length
      = (remove (LinearLayout.ctor [10, 20]) WidgetRef.elsewhere).2.size_policies.length ∧
    (insert_at (LinearLayout.ctor [10, 20]) 1 30 (SizePolicy.fixed 1) FocusPolicy.Tab).children.length
      = 3 :=
  ⟨by decide,
   (lockstep_preserved (LinearLayout.ctor [10, 20]) (by decide)).2.2.1 7,
   (lockstep_preserved (LinearLayout.ctor [10, 20]) (by decide)).2.2.2.1 WidgetRef.elsewhere,
   by decide⟩

theorem remove_at_append {α : Type} (L : LinearLayout α) (h : L.aligned) (w : α)
    (p : SizePolicy) (f : FocusPolicy) :
    remove_at (append L w p f) L.children.length
      = (.ok { data := w, focus_policy := f }, L) := by
  unfold LinearLayout.aligned at h
  have hp : (L.size_policies ++ [p]).eraseIdx L.children.length = L.size_policies := by
    rw [h, List.eraseIdx_append_of_length_le (Nat.le_refl _)]; simp
  have hc : (L.children ++ [({ data := w, focus_policy := f } : Widget α)]).eraseIdx
      L.children.length = L.children := by
    rw [List.eraseIdx_append_of_length_le (Nat.le_refl _)]; simp
  simp [remove_at, append, hp, hc]

/-- C2. On a layout with `n` children (the two sequences in lockstep),
`append` followed by `remove_at` at index `n` returns the appended widget and
gives back the layout as it was, both sequences equal to what they were; so
does `insert_at` at any index `i` followed by `remove_at` at `min i n`. -/
theorem append_then_remove_at_restores {α : Type} (L : LinearLayout α) (h : L.aligned)
    (w : α) (p : SizePolicy) (f : FocusPolicy) :
    remove_at (append L w p f) L.children.length
      = (.ok { data := w, focus_policy := f }, L) ∧
    ∀ i : Nat, remove_at (insert_at L i w p f) (min i L.children.length)
      = (.ok { data := w, focus_policy := f }, L) := by
  refine ⟨remove_at_append L h w p f, fun i => ?_⟩
  by_cases hi : i ≥ L.children.length
  · have : insert_at L i w p f = append L w p f := by simp [insert_at, hi]
    rw [this, Nat.min_eq_right hi]
    exact remove_at_append L h w p f
  · have hlt : i < L.children.length := Nat.lt_of_not_ge hi
    have hle : i ≤ L.children.length := Nat.le_of_lt hlt
    rw [Nat.min_eq_left hle]
    have hlen : (L.children.insertIdx i ({ data := w, focus_policy := f } : Widget α)).length
        = L.children.length + 1 := List.length_insertIdx _ _ hle
    have hnot : ¬ i ≥ (insert_at L i w p f).children.length := by
      simp [insert_at, hi, hlen]; omega
    unfold remove_at
    rw [dif_neg hnot]
    simp [insert_at, hi, List.eraseIdx_insertIdx, List.getElem_insertIdx_self _ _ _ hle]

/-- The round trip on a layout of two children: append and remove at 2, insert
at 1 and remove at 1. -/
theorem append_then_remove_at_restores_witness :
    (LinearLayout.ctor [10, 20]).aligned ∧
    remove_at (append (LinearLayout.ctor [10, 20]) 30 (SizePolicy.fixed 1) FocusPolicy.Tab) 2
      = (.ok { data := 30, focus_policy := FocusPolicy.Tab }, LinearLayout.ctor [10, 20]) ∧
    remove_at (insert_at (LinearLayout.ctor [10, 20]) 1 30 (SizePolicy.fixed 1) FocusPolicy.Tab) 1
      = (.ok { data := 30, focus_policy := FocusPolicy.Tab }, LinearLayout.ctor [10, 20]) :=
  ⟨by decide,
   (append_then_remove_at_restores (LinearLayout.ctor [10, 20]) (by decide) 30
      (SizePolicy.fixed 1) FocusPolicy.Tab).1,
   (append_then_remove_at_restores (LinearLayout.ctor [10, 20]) (by decide) 30
      (SizePolicy.fixed 1) FocusPolicy.Tab).2 1⟩

/-- C3. For an index at or past the number of children, `insert_at` leaves
exactly the layout `append` leaves: the widget is the last child, the policy
the last size policy, and all earlier entries are unchanged. -/
theorem insert_at_past_the_end_is_append {α : Type} (layout : LinearLayout α) (index : Nat)
    (h : index ≥ layout.children.length) (t : α) (p : SizePolicy) (f : FocusPolicy) :
    insert_at layout index t p f = append layout t p f ∧
    appended_at_the_end layout (insert_at layout index t p f) t p f ∧
    (insert_at layout index t p f).children.getLast? = some { data := t, focus_policy := f } ∧
    (insert_at layout index t p f).size_policies.getLast? = some p ∧
    (insert_at layout index t p f).children.take layout.children.length = layout.children ∧
    (insert_at layout index t p f).size_policies.take layout.size_policies.length
      = layout.size_policies := by
  have e : insert_at layout index t p f = append layout t p f := by simp [insert_at, h]
  rw [e]
  simp [append, appended_at_the_end]

/-- Inserting at index 9 into a layout of two children appends. -/
theorem insert_at_past_the_end_is_append_witness :
    (9 : Nat) ≥ (LinearLayout.ctor [10, 20]).children.length ∧
    insert_at (LinearLayout.ctor [10, 20]) 9 30 (SizePolicy.fixed 1) FocusPolicy.Tab
      = append (LinearLayout.ctor [10, 20]) 30 (SizePolicy.fixed 1) FocusPolicy.Tab :=
  ⟨by decide,
   (insert_at_past_the_end_is_append (LinearLayout.ctor [10, 20]) 9 (by decide) 30
      (SizePolicy.fixed 1) FocusPolicy.Tab).1⟩

end ox.widgets

namespace cppurses.layout
namespace Selecting

/-! ## Selecting: the elementary moves -/

theorem set_selected_eq (s : Selecting) (index : Nat) (h1 : s.selected_ < s.child_count)
    (h2 : index < s.child_count) :
    s.set_selected index = .ok { s with
      children := (s.children.modify Child.unselect s.selected_).modify Child.select index
      selected_ := index } := by
  unfold child_count at h1 h2
  simp [set_selected, selected_child_unselect, selected_child_select, child_count, h1, h2,
    bind, Except.bind, Nat.not_le.mpr h1, Nat.not_le.mpr h2]

theorem increment_selected_eq (s : Selecting) (h : s.selected_ < s.child_count) :
    s.increment_selected = .ok (if s.selected_ + 1 = s.child_count then s else { s with
      children := (s.children.modify Child.unselect s.selected_).modify Child.select
        (s.selected_ + 1)
      selected_ := s.selected_ + 1 }) := by
  unfold increment_selected
  by_cases e : s.selected_ + 1 = s.child_count
  · simp [e, pure, Except.pure]
  · have h0 : s.child_count ≠ 0 := by omega
    have h2 : s.selected_ + 1 < s.child_count := by omega
    simp [e, h0, set_selected_eq s _ h h2]

theorem decrement_selected_eq (s : Selecting) (h : s.selected_ < s.child_count) :
    s.decrement_selected = .ok (if s.selected_ = 0 then s else { s with
      children := (s.children.modify Child.unselect s.selected_).modify Child.select
        (s.selected_ - 1)
      selected_ := s.selected_ - 1 }) := by
  unfold decrement_selected
  by_cases e : s.selected_ = 0
  · simp [e, pure, Except.pure]
  · have h0 : s.child_count ≠ 0 := by omega
    have h2 : s.selected_ - 1 < s.child_count := by omega
    simp [e, h0, set_selected_eq s _ h h2]

end Selecting
end cppurses.layout

namespace cppurses.layout
namespace Selecting

theorem update_geometry_child_count (g : Geometry) (s : Selecting) :
    (update_geometry g s).child_count = s.child_count := by
  simp [update_geometry, child_count]

theorem update_geometry_selected (g : Geometry) (s : Selecting) :
    (update_geometry g s).selected_ = s.selected_ := rfl

theorem set_offset_child_count (g : Geometry) (s : Selecting) (index : Nat) :
    (s.set_offset g index).child_count = s.child_count := by
  unfold set_offset
  rw [update_geometry_child_count]
  rfl

theorem increment_offset_child_count (g : Geometry) (s : Selecting) :
    (s.increment_offset g).child_count = s.child_count := by
  unfold increment_offset
  simp only []
  split
  · rfl
  · split
    · exact set_offset_child_count g s _
    · rfl

theorem increment_offset_selected (g : Geometry) (s : Selecting) :
    (s.increment_offset g).selected_ = s.selected_ := by
  unfold increment_offset
  simp only []
  split
  · rfl
  · split <;> rfl

theorem increment_offset_offset (g : Geometry) (s : Selecting) (h : s.child_count ≠ 0) :
    (s.increment_offset g).offset
      = if s.offset + 1 ≠ s.child_count then s.offset + 1 else s.offset := by
  unfold increment_offset
  simp only [h, if_false, child_offset]
  split <;> rfl

theorem decrement_offset_child_count (g : Geometry) (s : Selecting) :
    (s.decrement_offset g).child_count = s.child_count := by
  unfold decrement_offset
  split
  · rfl
  · split
    · exact set_offset_child_count g s _
    · rfl

theorem decrement_offset_selected (g : Geometry) (s : Selecting) :
    (s.decrement_offset g).selected_ = s.selected_ := by
  unfold decrement_offset
  split
  · rfl
  · split <;> rfl

theorem selected_child_of_valid (s : Selecting) (h : s.selected_ < s.child_count) :
    s.selected_child = .ok s.children[s.selected_] := by
  unfold selected_child
  rw [dif_neg (Nat.not_le.mpr h)]

/-- The scroll loop leaves the selected index and the number of children as
they are, and it never reaches the failure of `selected_child()` from a valid
index: it returns or is still running. -/
theorem scroll_loop_valid (g : Geometry) (fuel : Nat) :
    ∀ s : Selecting, s.selected_ < s.child_count →
      scroll_loop g fuel s = .error .running ∨
      ∃ s', scroll_loop g fuel s = .ok s' ∧ s'.selected_ = s.selected_ ∧
        s'.child_count = s.child_count := by
  induction fuel with
  | zero =>
    intro s h
    unfold scroll_loop
    rw [selected_child_of_valid s h]
    by_cases e : s.children[s.selected_].enabled = true
    · right; exact ⟨s, by simp [bind, Except.bind, e, pure, Except.pure], rfl, rfl⟩
    · left; simp [bind, Except.bind, e]
  | succ n ih =>
    intro s h
    unfold scroll_loop
    rw [selected_child_of_valid s h]
    by_cases e : s.children[s.selected_].enabled = true
    · right; exact ⟨s, by simp [bind, Except.bind, e, pure, Except.pure], rfl, rfl⟩
    · have hv : (update_geometry g (s.increment_offset g)).selected_
          < (update_geometry g (s.increment_offset g)).child_count := by
        rw [update_geometry_child_count, update_geometry_selected, increment_offset_child_count,
          increment_offset_selected]
        exact h
      have hs : (update_geometry g (s.increment_offset g)).selected_ = s.selected_ := by
        rw [update_geometry_selected, increment_offset_selected]
      have hc : (update_geometry g (s.increment_offset g)).child_count = s.child_count := by
        rw [update_geometry_child_count, increment_offset_child_count]
      simp only [bind, Except.bind, e, Bool.not_false, if_true, Bool.false_eq_true, if_false,
        Bool.not_eq_true']
      rcases ih _ hv with h1 | ⟨s', h1, h2, h3⟩
      · left; simpa [e] using h1
      · right; exact ⟨s', by simpa [e] using h1, by rw [h2, hs], by rw [h3, hc]⟩

/-- Enough iterations give the result: when the loop condition is false after
`n` iterations of the body and the bound is at least `n`, the loop returns. -/
theorem scroll_loop_returns (g : Geometry) (fuel : Nat) :
    ∀ (s : Selecting) (n : Nat), s.selected_ < s.child_count → n ≤ fuel →
      selected_is_enabled (scroll_steps g n s) = true →
      ∃ s', scroll_loop g fuel s = .ok s' := by
  induction fuel with
  | zero =>
    intro s n h hn hen
    have : n = 0 := by omega
    subst this
    unfold scroll_loop
    simp only [scroll_steps, selected_is_enabled, selected_child_of_valid s h] at hen
    rw [selected_child_of_valid s h]
    exact ⟨s, by simp [bind, Except.bind, hen, pure, Except.pure]⟩
  | succ k ih =>
    intro s n h hn hen
    unfold scroll_loop
    rw [selected_child_of_valid s h]
    by_cases e : s.children[s.selected_].enabled = true
    · exact ⟨s, by simp [bind, Except.bind, e, pure, Except.pure]⟩
    · have hv : (update_geometry g (s.increment_offset g)).selected_
          < (update_geometry g (s.increment_offset g)).child_count := by
        rw [update_geometry_child_count, update_geometry_selected, increment_offset_child_count,
          increment_offset_selected]
        exact h
      cases n with
      | zero =>
        simp only [scroll_steps, selected_is_enabled, selected_child_of_valid s h] at hen
        exact absurd hen e
      | succ m =>
        simp only [scroll_steps] at hen
        obtain ⟨s', hs'⟩ := ih _ m hv (by omega) hen
        exact ⟨s', by simpa [bind, Except.bind, e] using hs'⟩

end Selecting
end cppurses.layout

namespace cppurses.layout
namespace Selecting

theorem increment_selected_valid (s : Selecting) (h : s.selected_ < s.child_count) :
    ∃ s', s.increment_selected = .ok s' ∧ s'.selected_ < s'.child_count ∧
      s'.child_count = s.child_count ∧ s'.offset = s.offset ∧
      s'.selected_ = (if s.selected_ + 1 < s.child_count then s.selected_ + 1 else s.selected_) := by
  refine ⟨_, increment_selected_eq s h, ?_⟩
  by_cases e : s.selected_ + 1 = s.child_count
  · have : ¬ s.selected_ + 1 < s.child_count := by omega
    simp [e, this, h]
  · have h2 : s.selected_ + 1 < s.child_count := by omega
    simp only [e, if_false, h2, if_true]
    unfold child_count at *
    simp [h2]

theorem decrement_selected_valid (s : Selecting) (h : s.selected_ < s.child_count) :
    ∃ s', s.decrement_selected = .ok s' ∧ s'.selected_ < s'.child_count ∧
      s'.child_count = s.child_count ∧ s'.offset = s.offset ∧
      s'.selected_ = s.selected_ - 1 := by
  refine ⟨_, decrement_selected_eq s h, ?_⟩
  by_cases e : s.selected_ = 0
  · simp [e]; omega
  · simp only [e, if_false]
    unfold child_count at *
    simp; omega

theorem decrement_selected_and_scroll_valid (g : Geometry) (s : Selecting)
    (h : s.selected_ < s.child_count) :
    ∃ s', s.decrement_selected_and_scroll_if_necessary g = .ok s' ∧
      s'.selected_ < s'.child_count ∧ s'.child_count = s.child_count := by
  obtain ⟨s1, e1, v1, c1, -, -⟩ := decrement_selected_valid s h
  unfold decrement_selected_and_scroll_if_necessary
  rw [e1]
  simp only [bind, Except.bind, selected_child_of_valid s1 v1]
  by_cases e : s1.children[s1.selected_].enabled = true
  · exact ⟨s1, by simp [e, pure, Except.pure], v1, c1⟩
  · refine ⟨(s1.decrement_offset g), by simp [e, pure, Except.pure], ?_, ?_⟩
    · rw [decrement_offset_selected, decrement_offset_child_count]; exact v1
    · rw [decrement_offset_child_count]; exact c1

theorem increment_offset_and_increment_selected_valid (g : Geometry) (s : Selecting)
    (h : s.selected_ < s.child_count) :
    ∃ s', s.increment_offset_and_increment_selected g = .ok s' ∧
      s'.selected_ < s'.child_count ∧ s'.child_count = s.child_count ∧
      s'.offset = (if s.offset + 1 ≠ s.child_count then s.offset + 1 else s.offset) ∧
      s'.selected_ = (if s.selected_ + 1 < s.child_count then s.selected_ + 1 else s.selected_) := by
  have hv : (s.increment_offset g).selected_ < (s.increment_offset g).child_count := by
    rw [increment_offset_selected, increment_offset_child_count]; exact h
  obtain ⟨s1, e1, v1, c1, o1, n1⟩ := increment_selected_valid (s.increment_offset g) hv
  refine ⟨s1, e1, v1, ?_, ?_, ?_⟩
  · rw [c1, increment_offset_child_count]
  · rw [o1, increment_offset_offset g s (by omega)]
  · rw [n1, increment_offset_selected, increment_offset_child_count]

theorem decrement_offset_and_decrement_selected_valid (g : Geometry) (s : Selecting)
    (h : s.selected_ < s.child_count) :
    ∃ s', s.decrement_offset_and_decrement_selected g = .ok s' ∧
      s'.selected_ < s'.child_count ∧ s'.child_count = s.child_count := by
  unfold decrement_offset_and_decrement_selected
  split
  · exact ⟨s, rfl, h, rfl⟩
  · have hv : (s.decrement_offset g).selected_ < (s.decrement_offset g).child_count := by
      rw [decrement_offset_selected, decrement_offset_child_count]; exact h
    obtain ⟨s1, e1, v1, c1, -, -⟩ := decrement_selected_valid (s.decrement_offset g) hv
    exact ⟨s1, e1, v1, by rw [c1, decrement_offset_child_count]⟩

/-- C5. On a non-empty layout with a valid selected index, a key press that
matches one of the four key sets never reaches the failure of
`selected_child()`, and every state it returns has
`0 ≤ selected_index < child_count`, with the children count unchanged. The
handler returns for a key outside the increment-select set, and for a key of
that set as soon as the scroll loop meets its exit condition within the
iteration bound. -/
theorem key_press_keeps_selected_index_in_range (g : Geometry) (fuel : Nat) (s : Selecting)
    (key : Nat) (hne : s.child_count ≠ 0) (hsel : s.selected_ < s.child_count)
    (hkey : contains key s.increment_selection_keys_ = true ∨
      contains key s.decrement_selection_keys_ = true ∨
      contains key s.increment_scroll_keys_ = true ∨
      contains key s.decrement_scroll_keys_ = true) :
    (∀ s', s.key_press_event g fuel key = .ok s' →
      0 ≤ s'.selected_ ∧ s'.selected_ < s'.child_count ∧ s'.child_count = s.child_count) ∧
    (∀ a b, s.key_press_event g fuel key ≠ .error (.runtime_error a b)) ∧
    (contains key s.increment_selection_keys_ = false →
      ∃ s', s.key_press_event g fuel key = .ok s') ∧
    (∀ s1 n, s.increment_selected = .ok s1 → n ≤ fuel →
      selected_is_enabled (scroll_steps g n s1) = true →
      ∃ s', s.key_press_event g fuel key = .ok s') := by
  have hcount : s.child_count ≠ 0 := hne
  by_cases k1 : contains key s.increment_selection_keys_ = true
  · obtain ⟨s1, e1, v1, c1, -, -⟩ := increment_selected_valid s hsel
    have hk : s.key_press_event g fuel key = scroll_loop g fuel s1 := by
      simp [key_press_event, k1, increment_selected_and_scroll_if_necessary, e1, bind,
        Except.bind]
    rw [hk]
    refine ⟨?_, ?_, ?_, ?_⟩
    · intro s' hs'
      rcases scroll_loop_valid g fuel s1 v1 with h1 | ⟨t, h1, h2, h3⟩
      · rw [h1] at hs'; cases hs'
      · rw [h1] at hs'
        cases hs'
        exact ⟨Nat.zero_le _, by rw [h2, h3]; exact v1, by rw [h3, c1]⟩
    · intro a b hab
      rcases scroll_loop_valid g fuel s1 v1 with h1 | ⟨t, h1, -, -⟩
      · rw [h1] at hab; cases hab
      · rw [h1] at hab; cases hab
    · intro hk1; rw [k1] at hk1; cases hk1
    · intro t n ht hn hen
      rw [e1] at ht
      cases ht
      exact scroll_loop_returns g fuel s1 n v1 hn hen
  · have k1f : contains key s.increment_selection_keys_ = false := by simpa using k1
    have main : ∃ s', s.key_press_event g fuel key = .ok s' ∧
        s'.selected_ < s'.child_count ∧ s'.child_count = s.child_count := by
      by_cases k2 : contains key s.decrement_selection_keys_ = true
      · obtain ⟨s', e, v, c⟩ := decrement_selected_and_scroll_valid g s hsel
        exact ⟨s', by simp [key_press_event, k1f, k2, e], v, c⟩
      · have k2f : contains key s.decrement_selection_keys_ = false := by simpa using k2
        by_cases k3 : contains key s.increment_scroll_keys_ = true
        · obtain ⟨s', e, v, c, -, -⟩ := increment_offset_and_increment_selected_valid g s hsel
          exact ⟨s', by simp [key_press_event, k1f, k2f, k3, e], v, c⟩
        · have k3f : contains key s.increment_scroll_keys_ = false := by simpa using k3
          have k4 : contains key s.decrement_scroll_keys_ = true := by
            rcases hkey with h | h | h | h
            · exact absurd h k1
            · exact absurd h k2
            · exact absurd h k3
            · exact h
          obtain ⟨s', e, v, c⟩ := decrement_offset_and_decrement_selected_valid g s hsel
          exact ⟨s', by simp [key_press_event, k1f, k2f, k3f, k4, e], v, c⟩
    obtain ⟨t, e, v, c⟩ := main
    refine ⟨?_, ?_, fun _ => ⟨t, e⟩, fun _ _ _ _ _ => ⟨t, e⟩⟩
    · intro s' hs'
      rw [e] at hs'
      cases hs'
      exact ⟨Nat.zero_le _, v, c⟩
    · intro a b hab
      rw [e] at hab
      cases hab

end Selecting
end cppurses.layout

namespace cppurses.layout
namespace Selecting

/-- An increment-select press on five one-row children in a viewport of three
rows, the third child selected: the loop scrolls once and the handler returns
with the selected index in range. -/
theorem key_press_keeps_selected_index_in_range_witness :
    (sample 5 0 2 3).child_count ≠ 0 ∧
    (sample 5 0 2 3).selected_ < (sample 5 0 2 3).child_count ∧
    contains 1 (sample 5 0 2 3).increment_selection_keys_ = true ∧
    ∃ s', (sample 5 0 2 3).key_press_event rows 5 1 = .ok s' ∧
      s'.selected_ < s'.child_count :=
  have h := key_press_keeps_selected_index_in_range rows 5 (sample 5 0 2 3) 1
    (by decide) (by decide) (Or.inl (by decide))
  ⟨by decide, by decide, by decide,
    match h.2.2.2 _ 1 (increment_selected_eq (sample 5 0 2 3) (by decide)) (by decide)
      (by decide) with
    | ⟨s', hs'⟩ => ⟨s', hs', (h.1 s' hs').2.1⟩⟩

/-- C9, as the code has it. On a non-empty layout whose selected index is the
last one and whose selected child is enabled, an increment-select key press
returns and leaves the whole state, the selected index and the viewport offset
included, unchanged. -/
theorem increment_select_at_last_enabled_is_noop (g : Geometry) (fuel : Nat) (s : Selecting)
    (key : Nat) (hne : s.child_count ≠ 0) (hlast : s.selected_ = s.child_count - 1)
    (hkey : contains key s.increment_selection_keys_ = true)
    (hen : s.selected_is_enabled = true) :
    s.key_press_event g fuel key = .ok s ∧
    (∀ s', s.key_press_event g fuel key = .ok s' →
      s'.selected_ = s.selected_ ∧ s'.offset = s.offset) := by
  have hv : s.selected_ < s.child_count := by omega
  have h1 : s.increment_selected = .ok s := by
    rw [increment_selected_eq s hv]
    have : s.selected_ + 1 = s.child_count := by omega
    simp [this]
  have hc : s.children[s.selected_].enabled = true := by
    simpa [selected_is_enabled, selected_child_of_valid s hv] using hen
  have h2 : scroll_loop g fuel s = .ok s := by
    cases fuel with
    | zero => simp [scroll_loop, selected_child_of_valid s hv, hc, bind, Except.bind, pure,
        Except.pure]
    | succ n => simp [scroll_loop, selected_child_of_valid s hv, hc, bind, Except.bind, pure,
        Except.pure]
  have h3 : s.key_press_event g fuel key = .ok s := by
    simp [key_press_event, hkey, increment_selected_and_scroll_if_necessary, h1, h2, bind,
      Except.bind]
  refine ⟨h3, fun s' hs' => ?_⟩
  rw [h3] at hs'
  cases hs'
  exact ⟨rfl, rfl⟩

/-- Three visible children, the last one selected: the increment-select key
changes nothing. -/
theorem increment_select_at_last_enabled_is_noop_witness :
    (sample 3 0 2 3).child_count ≠ 0 ∧
    (sample 3 0 2 3).selected_ = (sample 3 0 2 3).child_count - 1 ∧
    (sample 3 0 2 3).key_press_event rows 4 1 = .ok (sample 3 0 2 3) :=
  ⟨by decide, by decide,
   (increment_select_at_last_enabled_is_noop rows 4 (sample 3 0 2 3) 1 (by decide) (by decide)
      (by decide) (by decide)).1⟩

/-- C9 as stated fails: two one-row children in a viewport of one row, offset
0, the last child selected and therefore not enabled. The increment-select key
keeps the selected index at 1 and moves the viewport offset from 0 to 1. -/
theorem increment_select_at_last_can_scroll :
    (sample 2 0 1 1).child_count ≠ 0 ∧
    (sample 2 0 1 1).selected_ = (sample 2 0 1 1).child_count - 1 ∧
    contains 1 (sample 2 0 1 1).increment_selection_keys_ = true ∧
    (sample 2 0 1 1).offset = 0 ∧
    ((sample 2 0 1 1).key_press_event rows 1 1).map (fun s' => (s'.selected_, s'.offset))
      = .ok (1, 1) := by
  decide

/-- C10, as the code has it. On a non-empty layout with a valid selected
index, an increment-scroll key press returns and moves the viewport offset and
the selected index each under its own bound: the offset goes up by one unless
`offset + 1 = child_count`, and the selected index goes up by one if
`selected_index + 1 < child_count` and stays otherwise. So both go up by
exactly one when both bounds allow it. With five children, offset 0 and
selected index 0, two presses give offset 2 and selected index 2. -/
theorem increment_scroll_moves_offset_and_selection (g : Geometry) (fuel : Nat) (s : Selecting)
    (key : Nat) (_hne : s.child_count ≠ 0) (hsel : s.selected_ < s.child_count)
    (k1 : contains key s.increment_selection_keys_ = false)
    (k2 : contains key s.decrement_selection_keys_ = false)
    (k3 : contains key s.increment_scroll_keys_ = true) :
    ∃ s', s.key_press_event g fuel key = .ok s' ∧
      s'.offset = (if s.offset + 1 ≠ s.child_count then s.offset + 1 else s.offset) ∧
      s'.selected_ = (if s.selected_ + 1 < s.child_count then s.selected_ + 1 else s.selected_) ∧
      s'.child_count = s.child_count ∧
      (s.child_count = 5 → s.offset = 0 → s.selected_ = 0 →
        ∃ s'', s'.key_press_event g fuel key = .ok s'' ∧ s''.offset = 2 ∧ s''.selected_ = 2) := by
  have step : ∀ t : Selecting, t.selected_ < t.child_count →
      contains key t.increment_selection_keys_ = false →
      contains key t.decrement_selection_keys_ = false →
      contains key t.increment_scroll_keys_ = true →
      ∃ t', t.key_press_event g fuel key = .ok t' ∧
        t'.selected_ < t'.child_count ∧ t'.child_count = t.child_count ∧
        t'.offset = (if t.offset + 1 ≠ t.child_count then t.offset + 1 else t.offset) ∧
        t'.selected_ = (if t.selected_ + 1 < t.child_count then t.selected_ + 1
          else t.selected_) ∧
        t'.increment_selection_keys_ = t.increment_selection_keys_ ∧
        t'.decrement_selection_keys_ = t.decrement_selection_keys_ ∧
        t'.increment_scroll_keys_ = t.increment_scroll_keys_ := by
    intro t hv j1 j2 j3
    have e : t.key_press_event g fuel key = (t.increment_offset g).increment_selected := by
      simp [key_press_event, j1, j2, j3, increment_offset_and_increment_selected]
    obtain ⟨t', e', v, c, o, n⟩ := increment_offset_and_increment_selected_valid g t hv
    unfold increment_offset_and_increment_selected at e'
    refine ⟨t', by rw [e, e'], v, c, o, n, ?_⟩
    have hv2 : (t.increment_offset g).selected_ < (t.increment_offset g).child_count := by
      rw [increment_offset_selected, increment_offset_child_count]; exact hv
    rw [increment_selected_eq _ hv2] at e'
    have keys : (t.increment_offset g).increment_selection_keys_ = t.increment_selection_keys_ ∧
        (t.increment_offset g).decrement_selection_keys_ = t.decrement_selection_keys_ ∧
        (t.increment_offset g).increment_scroll_keys_ = t.increment_scroll_keys_ := by
      unfold increment_offset
      simp only []
      split
      · exact ⟨rfl, rfl, rfl⟩
      · split <;> exact ⟨rfl, rfl, rfl⟩
    cases e'
    split <;> exact keys
  obtain ⟨s', e, v, c, o, n, q1, q2, q3⟩ := step s hsel k1 k2 k3
  refine ⟨s', e, o, n, c, fun h5 h0 hs0 => ?_⟩
  obtain ⟨s'', e2, -, -, o2, n2, -⟩ := step s' v (by rw [q1]; exact k1) (by rw [q2]; exact k2)
    (by rw [q3]; exact k3)
  refine ⟨s'', e2, ?_, ?_⟩
  · rw [o2, o, c, h5, h0]; decide
  · rw [n2, n, c, h5, hs0]; decide

/-- The scenario of the spec: five children, a viewport of three, offset 0 and
selected index 0; the first increment-scroll press gives offset 1 and selected
index 1. -/
theorem increment_scroll_moves_offset_and_selection_witness :
    (sample 5 0 0 3).child_count ≠ 0 ∧
    (sample 5 0 0 3).selected_ < (sample 5 0 0 3).child_count ∧
    ∃ s', (sample 5 0 0 3).key_press_event rows 0 3 = .ok s' ∧ s'.offset = 1 ∧
      s'.selected_ = 1 :=
  ⟨by decide, by decide,
    match increment_scroll_moves_offset_and_selection rows 0 (sample 5 0 0 3) 3 (by decide)
      (by decide) (by decide) (by decide) (by decide) with
    | ⟨s', e, o, n, _⟩ => ⟨s', e, o, n⟩⟩

/-- C10 as stated fails, in both directions. Three visible children, offset 0,
the last child selected: `offset + 1 < child_count`, and the increment-scroll
key moves the offset to 1 while the selected index stays 2. Three children,
offset 2 and selected index 0: `offset + 1 < child_count` is false, and the
key leaves the offset at 2 while the selected index moves to 1. -/
theorem increment_scroll_not_in_lockstep :
    (sample 3 0 2 3).child_count ≠ 0 ∧
    (sample 3 0 2 3).offset + 1 < (sample 3 0 2 3).child_count ∧
    (sample 3 0 2 3).selected_ = 2 ∧
    ((sample 3 0 2 3).key_press_event rows 0 3).map (fun s' => (s'.offset, s'.selected_))
      = .ok (1, 2) ∧
    ¬ (sample 3 2 0 3).offset + 1 < (sample 3 2 0 3).child_count ∧
    (sample 3 2 0 3).selected_ = 0 ∧
    ((sample 3 2 0 3).key_press_event rows 0 3).map (fun s' => (s'.offset, s'.selected_))
      = .ok (2, 1) := by
  decide

/-- C6 at its failing input. Two children, the second one selected after one
increment-select press; `erase(0)` returns with one child left and the
selected index still 1, no longer below the child count. -/
theorem erase_before_selected_leaves_index_out_of_range :
    (handle_all rows true 2 (sample 2 0 0 3) [.focus_in, .key_press 1]).map
      (fun s => (s.child_count, s.selected_)) = .ok (2, 1) ∧
    (handle_all rows true 2 (sample 2 0 0 3) [.focus_in, .key_press 1, .erase_index 0]).map
      (fun s => (s.child_count, s.selected_)) = .ok (1, 1) := by
  decide

/-- C7 at its failing input. Four children, none flagged: focus-in, one
increment-select press, `erase(0)` and a second increment-select press leave
the children at positions 0 and 2 both flagged selected, with selected index
2. After the first three events alone the only flagged child is at position 0
while the selected index is 1. -/
theorem erase_then_select_flags_two_children :
    flagged (sample 4 0 0 3) = [] ∧
    (handle_all rows true 2 (sample 4 0 0 3)
      [.focus_in, .key_press 1, .erase_index 0]).map
      (fun s => (flagged s, s.selected_)) = .ok ([0], 1) ∧
    (handle_all rows true 2 (sample 4 0 0 3)
      [.focus_in, .key_press 1, .erase_index 0, .key_press 1]).map
      (fun s => (flagged s, s.selected_)) = .ok ([0, 2], 2) := by
  decide

/-- C8 at its failing input. On the empty layout the increment-select key and
the decrement-select key both end in the `std::runtime_error` of
`selected_child()`, whatever the geometry and the iteration bound. -/
theorem key_press_on_empty_layout_throws (g : Geometry) (fuel : Nat) :
    (sample 0 0 0 3).key_press_event g fuel 1 = .error (.runtime_error 0 0) ∧
    (sample 0 0 0 3).key_press_event g fuel 2 = .error (.runtime_error 0 0) := by
  cases fuel <;> exact ⟨rfl, rfl⟩

end Selecting
end cppurses.layout

namespace ox.widgets

/-! ## The sizing algorithm of the linear layout -/

theorem total_cons (c : Sized) (cs : List Sized) : total (c :: cs) = c.current + total cs := by
  simp [total]

theorem active_flex_nonneg (cs : List Sized) : 0 ≤ active_flex cs := by
  unfold active_flex
  apply List.sum_nonneg
  intro x hx
  simp only [List.mem_map, List.mem_filter] at hx
  obtain ⟨c, ⟨-, hc⟩, rfl⟩ := hx
  simp only [Sized.active, Bool.and_eq_true, decide_eq_true_eq] at hc
  exact le_of_lt hc.2

theorem share_nonneg (remaining : Int) (flex_sum : Rat) (c : Sized) (hr : 0 ≤ remaining)
    (hs : 0 ≤ flex_sum) : 0 ≤ share remaining flex_sum c := by
  unfold share
  split
  · rename_i ha
    simp only [Sized.active, Bool.and_eq_true, decide_eq_true_eq] at ha
    apply le_min
    · apply Int.floor_nonneg.mpr
      apply mul_nonneg
      · exact_mod_cast hr
      · exact div_nonneg (le_of_lt ha.2) hs
    · omega
  · exact le_refl 0

theorem share_le_room (remaining : Int) (flex_sum : Rat) (c : Sized)
    (h : c.current ≤ c.policy.maximum) :
    c.current + share remaining flex_sum c ≤ c.policy.maximum := by
  unfold share
  split
  · have := min_le_right ⌊(remaining : Rat) * (c.policy.flexibility / flex_sum)⌋
      (c.policy.maximum - c.current)
    omega
  · omega

/-- The part of a pass that one child may claim, as a rational number. -/
theorem share_le_part (remaining : Int) (flex_sum : Rat) (c : Sized) :
    ((share remaining flex_sum c : Int) : Rat)
      ≤ if c.active then (remaining : Rat) * (c.policy.flexibility / flex_sum) else 0 := by
  unfold share
  split
  · calc ((min ⌊(remaining : Rat) * (c.policy.flexibility / flex_sum)⌋
          (c.policy.maximum - c.current) : Int) : Rat)
        ≤ ((⌊(remaining : Rat) * (c.policy.flexibility / flex_sum)⌋ : Int) : Rat) := by
          exact_mod_cast min_le_left _ _
      _ ≤ (remaining : Rat) * (c.policy.flexibility / flex_sum) := Int.floor_le _
  · simp

theorem total_proportional (remaining : Int) (flex_sum : Rat) (cs : List Sized) :
    total (proportional remaining flex_sum cs)
      = total cs + (cs.map (share remaining flex_sum)).sum := by
  induction cs with
  | nil => simp [total, proportional]
  | cons c cs ih =>
    have e : proportional remaining flex_sum (c :: cs)
        = { c with current := c.current + share remaining flex_sum c }
          :: proportional remaining flex_sum cs := rfl
    rw [e, total_cons, total_cons, ih]
    simp only [List.map_cons, List.sum_cons]
    omega

theorem shares_le_parts (remaining : Int) (flex_sum : Rat) (cs : List Sized) :
    (((cs.map (share remaining flex_sum)).sum : Int) : Rat)
      ≤ (remaining : Rat) * (active_flex cs / flex_sum) := by
  induction cs with
  | nil => simp [active_flex]
  | cons c cs ih =>
    have h := share_le_part remaining flex_sum c
    simp only [List.map_cons, List.sum_cons, Int.cast_add]
    by_cases ha : c.active = true
    · have e : active_flex (c :: cs) = c.policy.flexibility + active_flex cs := by
        simp [active_flex, List.filter_cons, ha]
      rw [e, add_div, mul_add]
      simp only [ha, if_true] at h
      exact add_le_add h ih
    · have e : active_flex (c :: cs) = active_flex cs := by
        simp [active_flex, List.filter_cons, ha]
      rw [e]
      simp only [ha] at h
      simp only [Bool.false_eq_true, if_false] at h
      linarith

/-- A proportional pass hands out no more than what remains. -/
theorem shares_le_remaining (remaining : Int) (cs : List Sized) (hr : 0 ≤ remaining) :
    (cs.map (share remaining (active_flex cs))).sum ≤ remaining := by
  have h := shares_le_parts remaining (active_flex cs) cs
  have h1 : active_flex cs / active_flex cs ≤ 1 := div_self_le_one _
  have h2 : (remaining : Rat) * (active_flex cs / active_flex cs) ≤ (remaining : Rat) := by
    have hr' : (0 : Rat) ≤ (remaining : Rat) := by exact_mod_cast hr
    calc (remaining : Rat) * (active_flex cs / active_flex cs)
        ≤ (remaining : Rat) * 1 := mul_le_mul_of_nonneg_left h1 hr'
      _ = (remaining : Rat) := mul_one _
  exact_mod_cast le_trans h h2

theorem shares_nonneg (remaining : Int) (cs : List Sized) (hr : 0 ≤ remaining) :
    ∀ x ∈ cs.map (share remaining (active_flex cs)), 0 ≤ x := by
  intro x hx
  obtain ⟨c, -, rfl⟩ := List.mem_map.mp hx
  exact share_nonneg remaining _ c hr (active_flex_nonneg cs)

end ox.widgets

namespace ox.widgets

theorem proportional_policy (remaining : Int) (flex_sum : Rat) (cs : List Sized) :
    (proportional remaining flex_sum cs).map Sized.policy = cs.map Sized.policy := by
  simp [proportional, List.map_map, Function.comp_def]

theorem proportional_within_bounds (remaining : Int) (flex_sum : Rat) (cs : List Sized)
    (hr : 0 ≤ remaining) (hs : 0 ≤ flex_sum) (h : within_bounds cs) :
    within_bounds (proportional remaining flex_sum cs) := by
  intro d hd
  obtain ⟨c, hc, rfl⟩ := List.mem_map.mp hd
  have h1 := h c hc
  have h2 := share_nonneg remaining flex_sum c hr hs
  have h3 := share_le_room remaining flex_sum c h1.2
  exact ⟨by show c.policy.minimum ≤ c.current + share remaining flex_sum c; omega, h3⟩

theorem leftover_nil (remaining : Int) : leftover remaining [] = (remaining, []) := rfl

theorem leftover_cons (remaining : Int) (c : Sized) (cs : List Sized) :
    leftover remaining (c :: cs) =
      if 0 < remaining ∧ c.active then
        ((leftover (remaining - 1) cs).1,
          { c with current := c.current + 1 } :: (leftover (remaining - 1) cs).2)
      else ((leftover remaining cs).1, c :: (leftover remaining cs).2) := rfl

theorem leftover_le (cs : List Sized) : ∀ remaining : Int,
    (leftover remaining cs).1 ≤ remaining := by
  induction cs with
  | nil => intro r; simp [leftover_nil]
  | cons c cs ih =>
    intro r
    rw [leftover_cons]
    split
    · have := ih (r - 1); simp only; omega
    · exact ih r

theorem leftover_nonneg (cs : List Sized) : ∀ remaining : Int, 0 ≤ remaining →
    0 ≤ (leftover remaining cs).1 := by
  induction cs with
  | nil => intro r hr; simpa [leftover_nil] using hr
  | cons c cs ih =>
    intro r hr
    rw [leftover_cons]
    split
    · rename_i h; exact ih (r - 1) (by omega)
    · exact ih r hr

theorem leftover_total (cs : List Sized) : ∀ remaining : Int,
    total (leftover remaining cs).2 + (leftover remaining cs).1 = total cs + remaining := by
  induction cs with
  | nil => intro r; simp [leftover_nil, total]
  | cons c cs ih =>
    intro r
    rw [leftover_cons]
    split
    · have := ih (r - 1)
      simp only [total_cons]
      omega
    · have := ih r
      simp only [total_cons]
      omega

theorem leftover_policy (cs : List Sized) : ∀ remaining : Int,
    (leftover remaining cs).2.map Sized.policy = cs.map Sized.policy := by
  induction cs with
  | nil => intro r; simp [leftover_nil]
  | cons c cs ih =>
    intro r
    rw [leftover_cons]
    split
    · simp [ih (r - 1)]
    · simp [ih r]

theorem leftover_within_bounds (cs : List Sized) : ∀ remaining : Int, within_bounds cs →
    within_bounds (leftover remaining cs).2 := by
  induction cs with
  | nil => intro r h; simpa [leftover_nil] using h
  | cons c cs ih =>
    intro r h
    have hc := h c (List.mem_cons_self _ _)
    have hcs : within_bounds cs := fun d hd => h d (List.mem_cons_of_mem _ hd)
    rw [leftover_cons]
    split
    · rename_i ha
      have hact := ha.2
      simp only [Sized.active, Bool.and_eq_true, decide_eq_true_eq] at hact
      intro d hd
      rcases List.mem_cons.mp hd with rfl | hd
      · exact ⟨by show c.policy.minimum ≤ c.current + 1; omega,
          by show c.current + 1 ≤ c.policy.maximum; omega⟩
      · exact ih (r - 1) hcs d hd
    · intro d hd
      rcases List.mem_cons.mp hd with rfl | hd
      · exact hc
      · exact ih r hcs d hd

/-- While something remains and a child is active, the leftover units hand out
at least one unit. -/
theorem leftover_progress (cs : List Sized) : ∀ remaining : Int, 0 < remaining →
    (∃ c ∈ cs, c.active = true) → (leftover remaining cs).1 < remaining := by
  induction cs with
  | nil => intro r _ h; obtain ⟨c, hc, -⟩ := h; cases hc
  | cons c cs ih =>
    intro r hr h
    rw [leftover_cons]
    by_cases ha : c.active = true
    · have := leftover_le cs (r - 1)
      simp only [hr, ha, and_self, if_true]
      omega
    · obtain ⟨d, hd, hda⟩ := h
      rcases List.mem_cons.mp hd with rfl | hd
      · exact absurd hda ha
      · simp only [ha, and_false, if_false, Bool.false_eq_true]
        exact ih r hr ⟨d, hd, hda⟩

theorem pass_eq (remaining : Int) (cs : List Sized) :
    pass remaining cs = leftover
      (remaining - (total (proportional remaining (active_flex cs) cs) - total cs))
      (proportional remaining (active_flex cs) cs) := rfl

theorem pass_fst_nonneg (remaining : Int) (cs : List Sized) (hr : 0 ≤ remaining) :
    0 ≤ (pass remaining cs).1 := by
  rw [pass_eq]
  apply leftover_nonneg
  rw [total_proportional]
  have := shares_le_remaining remaining cs hr
  omega

theorem pass_total (remaining : Int) (cs : List Sized) :
    total (pass remaining cs).2 + (pass remaining cs).1 = total cs + remaining := by
  rw [pass_eq]
  rw [leftover_total]
  omega

theorem pass_policy (remaining : Int) (cs : List Sized) :
    (pass remaining cs).2.map Sized.policy = cs.map Sized.policy := by
  rw [pass_eq]
  rw [leftover_policy, proportional_policy]

theorem pass_within_bounds (remaining : Int) (cs : List Sized) (hr : 0 ≤ remaining)
    (h : within_bounds cs) : within_bounds (pass remaining cs).2 := by
  rw [pass_eq]
  exact leftover_within_bounds _ _
    (proportional_within_bounds remaining _ cs hr (active_flex_nonneg cs) h)

/-- A pass hands out at least one unit while something remains and a child is
active. -/
theorem pass_progress (remaining : Int) (cs : List Sized) (hr : 0 < remaining)
    (h : ∃ c ∈ cs, c.active = true) : (pass remaining cs).1 < remaining := by
  rw [pass_eq]
  have hle := shares_le_remaining remaining cs (le_of_lt hr)
  have hnn := shares_nonneg remaining cs (le_of_lt hr)
  have hsum : 0 ≤ (cs.map (share remaining (active_flex cs))).sum := List.sum_nonneg hnn
  rw [total_proportional]
  by_cases hz : (cs.map (share remaining (active_flex cs))).sum = 0
  · obtain ⟨c, hc, hca⟩ := h
    have hmem : share remaining (active_flex cs) c ∈ cs.map (share remaining (active_flex cs)) :=
      List.mem_map_of_mem _ hc
    have h0 : share remaining (active_flex cs) c = 0 := by
      have h1 := List.single_le_sum hnn _ hmem
      have h2 := hnn _ hmem
      omega
    have hact : ∃ d ∈ proportional remaining (active_flex cs) cs, d.active = true := by
      refine ⟨{ c with current := c.current + share remaining (active_flex cs) c },
        List.mem_map_of_mem _ hc, ?_⟩
      rw [h0]
      simpa [Sized.active] using hca
    have := leftover_progress _ (remaining - (total cs + 0 - total cs)) (by omega) hact
    rw [hz]
    omega
  · have := leftover_le (proportional remaining (active_flex cs) cs)
      (remaining - (total cs + (cs.map (share remaining (active_flex cs))).sum - total cs))
    omega

/-- Step 2 with enough passes: the children stay within their bounds and keep
their policies, and the length handed out plus what still remains is what was
there to distribute; either nothing remains or no child is active any more. -/
theorem distribute_spec (fuel : Nat) : ∀ (remaining : Int) (cs : List Sized),
    0 ≤ remaining → remaining.toNat ≤ fuel → within_bounds cs →
    within_bounds (distribute fuel remaining cs) ∧
    (distribute fuel remaining cs).map Sized.policy = cs.map Sized.policy ∧
    ∃ r : Int, 0 ≤ r ∧ total (distribute fuel remaining cs) + r = total cs + remaining ∧
      (r = 0 ∨ ∀ c ∈ distribute fuel remaining cs, c.active = false) := by
  induction fuel with
  | zero =>
    intro r cs hr hf h
    have : r = 0 := by omega
    exact ⟨h, rfl, 0, le_refl 0, by simp [distribute, this], Or.inl rfl⟩
  | succ n ih =>
    intro r cs hr hf h
    unfold distribute
    by_cases hc : 0 < r ∧ cs.any Sized.active = true
    · rw [if_pos hc]
      have hex : ∃ c ∈ cs, c.active = true := by simpa using hc.2
      have h1 := pass_fst_nonneg r cs hr
      have h2 := pass_progress r cs hc.1 hex
      have h3 := pass_total r cs
      obtain ⟨i1, i2, q, q0, q1, q2⟩ := ih (pass r cs).1 (pass r cs).2 h1 (by omega)
        (pass_within_bounds r cs hr h)
      exact ⟨i1, by rw [i2, pass_policy], q, q0, by omega, q2⟩
    · rw [if_neg hc]
      refine ⟨h, rfl, r, hr, rfl, ?_⟩
      by_cases hr0 : 0 < r
      · right
        intro c hcm
        have : ¬ cs.any Sized.active = true := fun ha => hc ⟨hr0, ha⟩
        simp only [List.any_eq_true, not_exists, not_and] at this
        simpa using this c hcm
      · left; omega

end ox.widgets

namespace ox.widgets

theorem distribute_zero (fuel : Nat) (cs : List Sized) : distribute fuel 0 cs = cs := by
  cases fuel with
  | zero => rfl
  | succ n => simp [distribute]

theorem extent_eq_current (c : Sized)
    (h : c.policy.minimum ≤ c.current ∧ c.current ≤ c.policy.maximum) :
    c.extent = c.current := by
  unfold Sized.extent
  rw [min_eq_left h.2, max_eq_right h.1]

theorem total_start (ps : List SizePolicy) :
    total (ps.map (fun p => ({ policy := p, current := p.minimum } : Sized)))
      = (ps.map SizePolicy.minimum).sum := by
  simp [total, List.map_map, Function.comp_def]

/-- C4, as the model of the sizing algorithm has it. For children whose
policies have `min_i ≤ max_i`: every extent lies within `[min_i, max_i]` for
every available length; when the length is at least the sum of the minima the
extents sum to at most the length; when the length is at most the sum of the
minima every child gets exactly its minimum; and when the length lies between
the sum of the minima and the sum of the maxima and every child that can grow
(`min_i < max_i`) has a positive flexibility, the extents sum to exactly the
length. -/
theorem resize_extents_fit_the_length {α : Type} (layout : LinearLayout α) (length : Int)
    (hp : ∀ p ∈ layout.size_policies, p.minimum ≤ p.maximum) :
    List.Forall₂ (fun p e => p.minimum ≤ e ∧ e ≤ p.maximum) layout.size_policies
      (resize layout length) ∧
    ((layout.size_policies.map SizePolicy.minimum).sum ≤ length →
      (resize layout length).sum ≤ length) ∧
    (length ≤ (layout.size_policies.map SizePolicy.minimum).sum →
      resize layout length = layout.size_policies.map SizePolicy.minimum) ∧
    ((layout.size_policies.map SizePolicy.minimum).sum ≤ length →
      length ≤ (layout.size_policies.map SizePolicy.maximum).sum →
      (∀ p ∈ layout.size_policies, p.minimum < p.maximum → 0 < p.flexibility) →
      (resize layout length).sum = length) := by
  obtain ⟨children, ps⟩ := layout
  simp only [resize] at *
  have hstart : within_bounds (ps.map (fun p => ({ policy := p, current := p.minimum } : Sized))) := by
    intro c hc
    obtain ⟨p, hpm, rfl⟩ := List.mem_map.mp hc
    exact ⟨le_refl _, hp p hpm⟩
  have hpol : (ps.map (fun p => ({ policy := p, current := p.minimum } : Sized))).map Sized.policy
      = ps := by
    simp [List.map_map, Function.comp_def]
  have hrem : (0 : Int) ≤ max 0 (length - (ps.map SizePolicy.minimum).sum) := le_max_left _ _
  obtain ⟨hb, hq, r, hr0, hsum, hdone⟩ := distribute_spec
    (max 0 (length - (ps.map SizePolicy.minimum).sum)).toNat
    (max 0 (length - (ps.map SizePolicy.minimum).sum))
    (ps.map (fun p => ({ policy := p, current := p.minimum } : Sized))) hrem (le_refl _) hstart
  rw [hpol] at hq
  rw [total_start] at hsum
  have hout : resize_extents ps length
      = (distribute (max 0 (length - (ps.map SizePolicy.minimum).sum)).toNat
          (max 0 (length - (ps.map SizePolicy.minimum).sum))
          (ps.map (fun p => ({ policy := p, current := p.minimum } : Sized)))).map
        Sized.current := by
    unfold resize_extents
    simp only [total_start]
    exact List.map_congr_left (fun c hc => extent_eq_current c (hb c hc))
  generalize distribute (max 0 (length - (ps.map SizePolicy.minimum).sum)).toNat
    (max 0 (length - (ps.map SizePolicy.minimum).sum))
    (ps.map (fun p => ({ policy := p, current := p.minimum } : Sized))) = ds at hb hq hsum hdone hout
  have hsumout : (resize_extents ps length).sum = total ds := by rw [hout]; rfl
  refine ⟨?_, ?_, ?_, ?_⟩
  · rw [hout, ← hq, List.forall₂_map_left_iff, List.forall₂_map_right_iff, List.forall₂_same]
    exact fun c hc => hb c hc
  · intro hmin
    rw [hsumout]
    rw [max_eq_right (by omega)] at hsum
    omega
  · intro hmin
    unfold resize_extents
    simp only [total_start]
    rw [max_eq_left (by omega), distribute_zero, List.map_map]
    apply List.map_congr_left
    intro p hpm
    show max p.minimum (min p.minimum p.maximum) = p.minimum
    rw [min_eq_left (hp p hpm), max_self]
  · intro hmin hmax hflex
    rw [hsumout]
    rw [max_eq_right (by omega)] at hsum
    rcases hdone with h0 | hnone
    · omega
    · have hfull : ∀ c ∈ ds, c.current = c.policy.maximum := by
        intro c hc
        have hb1 := hb c hc
        have hpm : c.policy ∈ ps := by rw [← hq]; exact List.mem_map_of_mem _ hc
        have hna := hnone c hc
        simp only [Sized.active, Bool.and_eq_false_iff, decide_eq_false_iff_not, not_lt] at hna
        rcases hna with h1 | h1
        · omega
        · by_contra hne
          have hlt : c.policy.minimum < c.policy.maximum := by omega
          exact absurd (hflex _ hpm hlt) (not_lt.mpr h1)
      have htot : total ds = (ps.map SizePolicy.maximum).sum := by
        rw [← hq, List.map_map]
        unfold total
        congr 1
        exact List.map_congr_left (fun c hc => hfull c hc)
      omega

/-- The scenario of the spec, three default policies and length 10: the extents
are 4, 3, 3, each within its bounds and summing to 10. -/
theorem resize_extents_fit_the_length_witness :
    (∀ p ∈ (LinearLayout.ctor [1, 2, 3]).size_policies, p.minimum ≤ p.maximum) ∧
    resize (LinearLayout.ctor [1, 2, 3]) 10 = [4, 3, 3] ∧
    (resize (LinearLayout.ctor [1, 2, 3]) 10).sum = 10 :=
  ⟨by decide, by decide!,
   (resize_extents_fit_the_length (LinearLayout.ctor [1, 2, 3]) 10 (by decide)).2.2.2
     (by decide) (by decide) (by decide!)⟩

/-- C4 as stated fails. One child with the policy `bounded(5, 10)` and the
length 3, which is below the sum of the minima: the extent is 5, more than the
length. One child with minimum 0, maximum 10 and flexibility 0 and the length
5, which lies between the sums: the extent is 0, not 5. -/
theorem resize_extents_miss_the_length :
    resize_extents [SizePolicy.bounded 5 10] 3 = [5] ∧
    ¬ (resize_extents [SizePolicy.bounded 5 10] 3).sum ≤ 3 ∧
    resize_extents [{ minimum := 0, maximum := 10, flexibility := 0 }] 5 = [0] ∧
    (resize_extents [{ minimum := 0, maximum := 10, flexibility := 0 }] 5).sum ≠ 5 := by
  decide!

end ox.widgets

namespace cppurses.layout
namespace Selecting

/-! ## Selecting: decrement-scroll and erasing the selected child -/

theorem decrement_offset_offset (g : Geometry) (s : Selecting) (h : s.child_count ≠ 0) :
    (s.decrement_offset g).offset = s.offset - 1 := by
  unfold decrement_offset
  simp only [h, if_false, child_offset]
  split
  · rfl
  · rename_i h0
    have : s.offset = 0 := by simpa using h0
    rw [this]

/-- Function `set_selected` returns for every index below the child count,
whatever the selected index was: the selected index becomes `index`, the child
there is flagged selected, and the offset, the number of children and their
identities stay. -/
theorem set_selected_returns (s : Selecting) (index : Nat) (h : index < s.child_count) :
    ∃ s', s.set_selected index = .ok s' ∧ s'.selected_ = index ∧
      s'.child_count = s.child_count ∧ s'.offset = s.offset ∧
      (∃ c, s'.selected_child = .ok c ∧ c.selected = true) ∧
      s'.children.map Child.id = s.children.map Child.id := by
  have hlen : index < s.children.length := h
  have ids : ∀ (f : Child → Child) (n : Nat) (l : List Child), (∀ c, (f c).id = c.id) →
      (l.modify f n).map Child.id = l.map Child.id := by
    intro f n l hf
    apply List.ext_getElem?
    intro m
    simp only [List.getElem?_map, List.getElem?_modify]
    cases l[m]? with
    | none => rfl
    | some a => by_cases e : n = m <;> simp [e, hf]
  by_cases h1 : s.selected_ < s.child_count
  · have h1' : s.selected_ < s.children.length := h1
    refine ⟨_, set_selected_eq s index h1 h, rfl, ?_, rfl, ?_, ?_⟩
    · simp [child_count]
    · refine ⟨_, selected_child_of_valid _ (by simpa [child_count] using hlen), ?_⟩
      simp [List.getElem_modify_eq, Child.select]
    · show ((s.children.modify Child.unselect s.selected_).modify Child.select index).map Child.id
        = s.children.map Child.id
      rw [ids Child.select _ _ (fun _ => rfl), ids Child.unselect _ _ (fun _ => rfl)]
  · have h1' : ¬ s.selected_ < s.children.length := h1
    have e : s.set_selected index = .ok { s with
        children := s.children.modify Child.select index, selected_ := index } := by
      simp [set_selected, selected_child_select, child_count, h1', hlen, bind, Except.bind,
        pure, Except.pure, Nat.not_le.mpr hlen]
    refine ⟨_, e, rfl, ?_, rfl, ?_, ?_⟩
    · simp [child_count]
    · refine ⟨_, selected_child_of_valid _ (by simpa [child_count] using hlen), ?_⟩
      simp [List.getElem_modify_eq, Child.select]
    · exact ids Child.select _ _ (fun _ => rfl)

theorem after_erase_facts (g : Geometry) (s : Selecting) (children : List Child) :
    (Layout_t_after_erase g s children).child_count = children.length ∧
    (Layout_t_after_erase g s children).offset = min s.offset (children.length - 1) ∧
    (Layout_t_after_erase g s children).selected_ = s.selected_ := by
  unfold Layout_t_after_erase
  exact ⟨by rw [update_geometry_child_count]; rfl, rfl, rfl⟩

/-- What `erase` does once the selected child is gone and at least one child
is left: `set_selected(get_offset())` returns, the selected index is the
viewport offset, which lies below the number of children, and the child there
is flagged selected. -/
theorem reselect_after_erase (g : Geometry) (s : Selecting) (children : List Child)
    (h : 0 < children.length) :
    ∃ s', (Layout_t_after_erase g s children).set_selected
        (Layout_t_after_erase g s children).get_offset = .ok s' ∧
      s'.selected_ = s'.offset ∧ s'.offset = min s.offset (children.length - 1) ∧
      s'.selected_ < s'.child_count ∧ s'.child_count = children.length ∧
      ∃ c, s'.selected_child = .ok c ∧ c.selected = true := by
  obtain ⟨hc, ho, -⟩ := after_erase_facts g s children
  have hlt : (Layout_t_after_erase g s children).get_offset
      < (Layout_t_after_erase g s children).child_count := by
    unfold get_offset
    rw [hc, ho]
    omega
  obtain ⟨s', e, n, c, o, f, -⟩ := set_selected_returns _ _ hlt
  unfold get_offset at e n hlt
  exact ⟨s', e, by rw [n, o], by rw [o, ho], by rw [n, c]; exact hlt, by rw [c, hc], f⟩

/-- C12. On a layout with at least two children and a valid selected index,
erasing the selected child, by index or by pointer, returns with one child
fewer; the selected index is then the viewport offset of the layout, which is
the former offset lowered, if need be, to the last remaining child and so lies
below the remaining child count; and the child at that index is flagged
selected. -/
theorem erase_selected_resets_to_offset (g : Geometry) (s : Selecting)
    (h2 : 2 ≤ s.child_count) (hsel : s.selected_ < s.child_count) :
    (∃ s', s.erase_index g s.selected_ = .ok s' ∧ s'.selected_ = s'.offset ∧
      s'.offset = min s.offset (s.child_count - 2) ∧
      s'.selected_ < s'.child_count ∧ s'.child_count = s.child_count - 1 ∧
      ∃ c, s'.selected_child = .ok c ∧ c.selected = true) ∧
    (∃ s', s.erase_child g (s.selected_child_const hsel).id = .ok s' ∧
      s'.selected_ = s'.offset ∧ s'.offset = min s.offset (s.child_count - 2) ∧
      s'.selected_ < s'.child_count ∧ s'.child_count = s.child_count - 1 ∧
      ∃ c, s'.selected_child = .ok c ∧ c.selected = true) := by
  have hlen : s.selected_ < s.children.length := hsel
  have hcount : s.child_count = s.children.length := rfl
  constructor
  · have hl : (s.children.eraseIdx s.selected_).length = s.child_count - 1 := by
      rw [List.length_eraseIdx_of_lt hlen]; rfl
    obtain ⟨s', e, n, o, v, c, f⟩ := reselect_after_erase g s (s.children.eraseIdx s.selected_)
      (by omega)
    have hpos : (s.Layout_t_erase_index g s.selected_).child_count > 0 := by
      unfold Layout_t_erase_index
      rw [(after_erase_facts g s _).1]
      omega
    refine ⟨s', ?_, n, by rw [o, hl]; rfl, v, by rw [c, hl], f⟩
    unfold erase_index
    simp only [decide_True, true_and, hpos, if_true]
    exact e
  · have hmem : s.children[s.selected_] ∈ s.children := List.getElem_mem hlen
    have hl : (s.children.eraseP (fun c => decide (c.id = (s.selected_child_const hsel).id))).length
        = s.child_count - 1 := by
      unfold selected_child_const
      rw [List.length_eraseP_of_mem hmem (by simp)]
      rfl
    obtain ⟨s', e, n, o, v, c, f⟩ := reselect_after_erase g s
      (s.children.eraseP (fun c => decide (c.id = (s.selected_child_const hsel).id))) (by omega)
    have hpos : (s.Layout_t_erase_child g (s.selected_child_const hsel).id).child_count > 0 := by
      unfold Layout_t_erase_child
      rw [(after_erase_facts g s _).1]
      omega
    refine ⟨s', ?_, n, by rw [o, hl]; rfl, v, by rw [c, hl], f⟩
    unfold erase_child
    rw [selected_child_of_valid s hsel]
    have hid : s.children[s.selected_].id = (s.selected_child_const hsel).id := rfl
    simp only [bind, Except.bind, hid, decide_True, true_and, hpos, if_true]
    exact e

/-- The scenario of the spec: four children, offset 1 and the third child
selected; erasing it leaves the selected index 1. With two children, offset 1
and the second child selected, erasing it leaves the offset and the selected
index 0. -/
theorem erase_selected_resets_to_offset_witness :
    2 ≤ (sample 4 1 2 3).child_count ∧
    (sample 4 1 2 3).selected_ < (sample 4 1 2 3).child_count ∧
    ((sample 4 1 2 3).erase_index rows 2).map (fun s' => (s'.selected_, s'.offset))
      = .ok (1, 1) ∧
    ((sample 2 1 1 3).erase_index rows 1).map (fun s' => (s'.selected_, s'.offset))
      = .ok (0, 0) ∧
    ∃ s', (sample 4 1 2 3).erase_index rows (sample 4 1 2 3).selected_ = .ok s' ∧
      s'.selected_ = s'.offset ∧ s'.selected_ < s'.child_count :=
  ⟨by decide, by decide, by decide, by decide,
    match (erase_selected_resets_to_offset rows (sample 4 1 2 3) (by decide) (by decide)).1 with
    | ⟨s', e, n, _, v, _⟩ => ⟨s', e, n, v⟩⟩

end Selecting
end cppurses.layout

namespace cppurses.layout
namespace Selecting

/-! ## Selecting: erase by predicate, and the selected child -/

/-- Function `erase(pred)` on a layout none of whose children satisfies the
predicate: it returns false and leaves the layout as it is. -/
theorem erase_pred_without_match (g : Geometry) (s : Selecting) (pred : Child → Bool)
    (h : ∀ c ∈ s.children, pred c = false) : s.erase_pred g pred = .ok (false, s) := by
  have hf : s.children.find? pred = none := by
    rw [List.find?_eq_none]
    intro c hc
    simp [h c hc]
  simp [erase_pred, hf, pure, Except.pure]

/-- Whenever `erase(pred)` returns, the value it returns tells whether some
child satisfies the predicate, and a false leaves the layout as it is. -/
theorem erase_pred_returned_value (g : Geometry) (s : Selecting) (pred : Child → Bool) (b : Bool)
    (s' : Selecting) (h : s.erase_pred g pred = .ok (b, s')) :
    (b = true ↔ ∃ c ∈ s.children, pred c = true) ∧ (b = false → s' = s) := by
  unfold erase_pred at h
  split at h
  · rename_i hf
    rw [List.find?_eq_none] at hf
    cases h
    refine ⟨⟨fun hb => (by cases hb), fun ⟨c, hc, hp⟩ => absurd hp (hf c hc)⟩, fun _ => rfl⟩
  · rename_i child hf
    have hp : pred child = true := List.find?_some hf
    have hm : child ∈ s.children := List.mem_of_find?_eq_some hf
    cases he : s.erase_child g child.id with
    | error e => rw [he] at h; cases h
    | ok s1 =>
      rw [he] at h
      cases h
      exact ⟨⟨fun _ => ⟨child, hm, hp⟩, fun _ => rfl⟩, fun hb => (by cases hb)⟩

/-- C13 at its failing input. Two children, focus-in, one increment-select
press and `erase(0)` leave one child, of identity 101, and the selected index
1. Then `erase(pred)` with a predicate that this child satisfies does not
return true: it ends in the `std::runtime_error` of `selected_child()`. -/
theorem erase_pred_throws_on_a_match :
    (handle_all rows true 2 (sample 2 0 0 3) [.focus_in, .key_press 1, .erase_index 0]).map
      (fun s => (s.children.map Child.id, s.selected_)) = .ok ([101], 1) ∧
    handle_all rows true 2 (sample 2 0 0 3)
      [.focus_in, .key_press 1, .erase_index 0, .erase_pred (fun c => c.id == 101)]
      = .error (.runtime_error 1 1) := by
  decide

/-- C14, as the code has it. The non-const `selected_child()` fails with its
`std::runtime_error` exactly when `selected_index >= child_count`, so always
on an empty layout; otherwise it returns the child stored at position
`selected_index`. The const overload makes no check: for an index in range it
returns that same child, and for an index out of range it does not throw the
error, the access being out of bounds. -/
theorem selected_child_checks_only_when_not_const (s : Selecting) :
    ((∃ a b, s.selected_child = .error (.runtime_error a b)) ↔ s.selected_ ≥ s.child_count) ∧
    (s.selected_ ≥ s.child_count →
      s.selected_child = .error (.runtime_error s.selected_ s.child_count)) ∧
    (s.child_count = 0 → s.selected_child = .error (.runtime_error s.selected_ 0)) ∧
    (∀ h : s.selected_ < s.child_count,
      s.selected_child = .ok (s.selected_child_const h) ∧
      s.selected_child_const_access = .returned (s.selected_child_const h) ∧
      s.children[s.selected_]? = some (s.selected_child_const h)) ∧
    s.selected_child ≠ .error .running ∧
    (s.selected_ ≥ s.child_count → s.selected_child_const_access = .undefined) ∧
    (∀ a b, s.selected_child_const_access ≠ .runtime_error a b) := by
  have hnever : ∀ a b, s.selected_child_const_access ≠ .runtime_error a b := by
    intro a b
    unfold selected_child_const_access
    split <;> intro hc <;> cases hc
  by_cases h : s.selected_ ≥ s.child_count
  · have e : s.selected_child = .error (.runtime_error s.selected_ s.child_count) := by
      unfold selected_child
      rw [dif_pos h]
    have hn : ¬ s.selected_ < s.children.length := Nat.not_lt.mpr h
    refine ⟨⟨fun _ => h, fun _ => ⟨_, _, e⟩⟩, fun _ => e, fun h0 => ?_, fun hlt => ?_, ?_,
      fun _ => ?_, hnever⟩
    · rw [e, h0]
    · omega
    · rw [e]; intro hc; cases hc
    · unfold selected_child_const_access
      rw [dif_neg hn]
  · have hlt : s.selected_ < s.child_count := Nat.lt_of_not_ge h
    have hlen : s.selected_ < s.children.length := hlt
    have e := selected_child_of_valid s hlt
    refine ⟨⟨fun ⟨a, b, hab⟩ => ?_, fun hge => absurd hge h⟩, fun hge => absurd hge h,
      fun h0 => ?_, fun _ => ⟨e, ?_, ?_⟩, ?_, fun hge => absurd hge h, hnever⟩
    · rw [e] at hab; cases hab
    · omega
    · unfold selected_child_const_access selected_child_const
      rw [dif_pos hlen]
    · unfold selected_child_const
      exact List.getElem?_eq_getElem hlen
    · rw [e]; intro hc; cases hc

/-- The empty layout, where the non-const `selected_child()` fails, and three
children with the second one selected, where both overloads return that
child. -/
theorem selected_child_checks_only_when_not_const_witness :
    (sample 0 0 0 3).child_count = 0 ∧
    (sample 0 0 0 3).selected_child = .error (.runtime_error 0 0) ∧
    (sample 3 0 1 3).selected_ < (sample 3 0 1 3).child_count ∧
    (sample 3 0 1 3).selected_child
      = .ok { id := 101, enabled := true, selected := false } ∧
    (sample 3 0 1 3).selected_child_const_access
      = .returned { id := 101, enabled := true, selected := false } :=
  ⟨by decide,
   (selected_child_checks_only_when_not_const (sample 0 0 0 3)).2.2.1 (by decide),
   by decide,
   ((selected_child_checks_only_when_not_const (sample 3 0 1 3)).2.2.2.1 (by decide)).1,
   by decide⟩

/-- C14 fails as stated. On the empty layout `selected_index >= child_count`
holds, the non-const `selected_child()` throws, and the const overload, which
is the first of the two in lines 69-85, does not: it reads `get_children()[0]`
of an empty container. -/
theorem selected_child_const_does_not_throw :
    (sample 0 0 0 3).selected_ ≥ (sample 0 0 0 3).child_count ∧
    (sample 0 0 0 3).selected_child = .error (.runtime_error 0 0) ∧
    (sample 0 0 0 3).selected_child_const_access = .undefined ∧
    (sample 0 0 0 3).selected_child_const_access ≠ .runtime_error 0 0 := by
  decide

end Selecting
end cppurses.layout

namespace ox.widgets

/-! ## LinearLayout: failures of the removals, positions after insert and remove -/

theorem find_if_eq_none {α : Type} (layout : LinearLayout α) (w : WidgetRef) :
    find_if layout w = none ↔ ¬ ∃ i, i < layout.children.length ∧ w = WidgetRef.slot i := by
  unfold find_if
  rw [List.find?_eq_none]
  constructor
  · rintro h ⟨i, hi, hw⟩
    exact h ⟨i, hi⟩ (List.mem_finRange _) (by simpa using hw)
  · intro h k _ hk
    exact h ⟨k.val, k.isLt, by simpa using hk⟩

theorem find_if_slot {α : Type} (layout : LinearLayout α) (i : Nat)
    (hi : i < layout.children.length) : find_if layout (WidgetRef.slot i) = some ⟨i, hi⟩ := by
  cases hf : find_if layout (WidgetRef.slot i) with
  | none =>
    rw [find_if_eq_none] at hf
    exact absurd ⟨i, hi, rfl⟩ hf
  | some k =>
    unfold find_if at hf
    have hk := List.find?_some hf
    simp only [decide_eq_true_eq, WidgetRef.slot.injEq] at hk
    congr 1
    exact Fin.ext hk.symm

/-- C15. `remove_at` fails, with `std::out_of_range`, exactly when the index
is at or past the number of children; `remove` fails, with the same exception
type, exactly when the reference designates none of the layout's children;
and a call that fails leaves the children and the size policies as they
were. -/
theorem removals_fail_iff_not_found {α : Type} (layout : LinearLayout α) :
    (∀ index : Nat,
      ((∃ e, (remove_at layout index).1 = .error e) ↔ index ≥ layout.children.length) ∧
      (index ≥ layout.children.length → (remove_at layout index).1
          = .error (.out_of_range "remove_at: index out of range")) ∧
      (∀ e, (remove_at layout index).1 = .error e → (remove_at layout index).2 = layout)) ∧
    (∀ w : WidgetRef,
      ((∃ e, (remove layout w).1 = .error e) ↔
        ¬ ∃ i, i < layout.children.length ∧ w = WidgetRef.slot i) ∧
      ((¬ ∃ i, i < layout.children.length ∧ w = WidgetRef.slot i) → (remove layout w).1
          = .error (.out_of_range "remove: Widget not found in layout")) ∧
      (∀ e, (remove layout w).1 = .error e → (remove layout w).2 = layout)) := by
  constructor
  · intro index
    unfold remove_at
    by_cases h : index ≥ layout.children.length
    · rw [dif_pos h]
      exact ⟨⟨fun _ => h, fun _ => ⟨_, rfl⟩⟩, fun _ => rfl, fun _ _ => rfl⟩
    · rw [dif_neg h]
      refine ⟨⟨fun ⟨e, he⟩ => ?_, fun hge => absurd hge h⟩, fun hge => absurd hge h,
        fun e he => ?_⟩
      · cases he
      · cases he
  · intro w
    unfold remove
    cases hf : find_if layout w with
    | none =>
      have hn := (find_if_eq_none layout w).mp hf
      exact ⟨⟨fun _ => hn, fun _ => ⟨_, rfl⟩⟩, fun _ => rfl, fun _ _ => rfl⟩
    | some k =>
      have hs : ¬ ¬ ∃ i, i < layout.children.length ∧ w = WidgetRef.slot i := by
        intro hn
        rw [(find_if_eq_none layout w).mpr hn] at hf
        cases hf
      refine ⟨⟨fun ⟨e, he⟩ => ?_, fun hn => absurd hn hs⟩, fun hn => absurd hn hs,
        fun e he => ?_⟩
      · cases he
      · cases he

/-- A layout of two children: `remove_at` at index 7 and `remove` of a widget
stored elsewhere fail and leave the layout as it was. -/
theorem removals_fail_iff_not_found_witness :
    (7 : Nat) ≥ (LinearLayout.ctor [10, 20]).children.length ∧
    (remove_at (LinearLayout.ctor [10, 20]) 7).1
      = .error (.out_of_range "remove_at: index out of range") ∧
    (remove_at (LinearLayout.ctor [10, 20]) 7).2 = LinearLayout.ctor [10, 20] ∧
    (remove (LinearLayout.ctor [10, 20]) WidgetRef.elsewhere).2 = LinearLayout.ctor [10, 20] :=
  ⟨by decide,
   ((removals_fail_iff_not_found (LinearLayout.ctor [10, 20])).1 7).2.1 (by decide),
   ((removals_fail_iff_not_found (LinearLayout.ctor [10, 20])).1 7).2.2 _
     (((removals_fail_iff_not_found (LinearLayout.ctor [10, 20])).1 7).2.1 (by decide)),
   ((removals_fail_iff_not_found (LinearLayout.ctor [10, 20])).2 WidgetRef.elsewhere).2.2 _
     (((removals_fail_iff_not_found (LinearLayout.ctor [10, 20])).2 WidgetRef.elsewhere).2.1
       (by decide))⟩

/-- C16, as the code has it. The default `SizePolicy` and the policies built
by `fixed(n)`, `flex(f)` and `min(n)`, for every `int` argument, have
`minimum <= maximum`; `bounded(min, max)` has it exactly when `min <= max`,
and `max(n)` exactly when `n >= 0`. -/
theorem size_policy_factories_ordered :
    (default : SizePolicy).minimum ≤ (default : SizePolicy).maximum ∧
    (∀ n : Int, (SizePolicy.fixed n).minimum ≤ (SizePolicy.fixed n).maximum) ∧
    (∀ f : Rat, (SizePolicy.flex f).minimum ≤ (SizePolicy.flex f).maximum) ∧
    (∀ n : Int, n ≤ INT_MAX → (SizePolicy.min n).minimum ≤ (SizePolicy.min n).maximum) ∧
    (∀ a b : Int, (SizePolicy.bounded a b).minimum ≤ (SizePolicy.bounded a b).maximum ↔ a ≤ b) ∧
    (∀ n : Int, (SizePolicy.max n).minimum ≤ (SizePolicy.max n).maximum ↔ 0 ≤ n) := by
  have h0 : (0 : Int) ≤ INT_MAX := by decide
  exact ⟨h0, fun n => le_refl _, fun _ => h0, fun n hn => hn, fun a b => Iff.rfl,
    fun n => Iff.rfl⟩

/-- The policy `min(7)`: its minimum 7 is at most its maximum. -/
theorem size_policy_factories_ordered_witness :
    (7 : Int) ≤ INT_MAX ∧ (SizePolicy.min 7).minimum ≤ (SizePolicy.min 7).maximum :=
  ⟨by decide, size_policy_factories_ordered.2.2.2.1 7 (by decide)⟩

/-- C16 as stated fails: `bounded(5, 3)` has minimum 5 above maximum 3, and
`max(-1)` has minimum 0 above maximum -1. -/
theorem size_policy_factories_can_be_unordered :
    ¬ (SizePolicy.bounded 5 3).minimum ≤ (SizePolicy.bounded 5 3).maximum ∧
    ¬ (SizePolicy.max (-1)).minimum ≤ (SizePolicy.max (-1)).maximum := by
  decide

theorem getElem?_insertIdx {β : Type} (a : β) : ∀ (l : List β) (i j : Nat), i ≤ l.length →
    (l.insertIdx i a)[j]? = if j < i then l[j]? else if j = i then some a else l[j - 1]? := by
  intro l
  induction l with
  | nil =>
    intro i j hi
    have : i = 0 := by simpa using hi
    subst this
    cases j <;> simp
  | cons b l ih =>
    intro i j hi
    cases i with
    | zero => cases j <;> simp
    | succ i =>
      cases j with
      | zero => simp
      | succ j =>
        have := ih i j (by simpa using hi)
        simp only [List.insertIdx_succ_cons, List.getElem?_cons_succ, this,
          Nat.add_lt_add_iff_right, Nat.add_right_cancel_iff, Nat.add_sub_cancel]
        by_cases h1 : j < i
        · simp [h1]
        · by_cases h2 : j = i
          · simp [h2]
          · have : 0 < j := by omega
            obtain ⟨k, rfl⟩ := Nat.exists_eq_succ_of_ne_zero (Nat.pos_iff_ne_zero.mp this)
            simp [h1, h2]

/-- C18. On a layout with `n` children, the two sequences in lockstep, and an
index `i < n`, `insert_at` yields sequences of length `n + 1` with the widget
at position `i` of the children and the policy at position `i` of the size
policies; the entries formerly at positions below `i` are where they were, and
an entry formerly at a position `j >= i` is now at `j + 1`. -/
theorem insert_at_within_shifts_the_tail {α : Type} (layout : LinearLayout α)
    (h : layout.aligned) (i : Nat) (hi : i < layout.children.length) (t : α) (p : SizePolicy)
    (f : FocusPolicy) :
    (insert_at layout i t p f).children.length = layout.children.length + 1 ∧
    (insert_at layout i t p f).size_policies.length = layout.children.length + 1 ∧
    (insert_at layout i t p f).children[i]? = some { data := t, focus_policy := f } ∧
    (insert_at layout i t p f).size_policies[i]? = some p ∧
    (∀ j, j < i →
      (insert_at layout i t p f).children[j]? = layout.children[j]? ∧
      (insert_at layout i t p f).size_policies[j]? = layout.size_policies[j]?) ∧
    (∀ j, i ≤ j →
      (insert_at layout i t p f).children[j + 1]? = layout.children[j]? ∧
      (insert_at layout i t p f).size_policies[j + 1]? = layout.size_policies[j]?) := by
  unfold LinearLayout.aligned at h
  have hc : i ≤ layout.children.length := Nat.le_of_lt hi
  have hp : i ≤ layout.size_policies.length := by omega
  have e : insert_at layout i t p f =
      { size_policies := layout.size_policies.insertIdx i p
        children := layout.children.insertIdx i { data := t, focus_policy := f } } := by
    unfold insert_at
    rw [if_neg (Nat.not_le.mpr hi)]
  rw [e]
  refine ⟨List.length_insertIdx _ _ hc, by rw [List.length_insertIdx _ _ hp, h], ?_, ?_,
    fun j hj => ⟨?_, ?_⟩, fun j hj => ⟨?_, ?_⟩⟩
  · simp [getElem?_insertIdx _ _ _ _ hc]
  · simp [getElem?_insertIdx _ _ _ _ hp]
  · simp [getElem?_insertIdx _ _ _ _ hc, hj]
  · simp [getElem?_insertIdx _ _ _ _ hp, hj]
  · have h1 : ¬ j + 1 < i := by omega
    have h2 : ¬ j + 1 = i := by omega
    simp [getElem?_insertIdx _ _ _ _ hc, h1, h2]
  · have h1 : ¬ j + 1 < i := by omega
    have h2 : ¬ j + 1 = i := by omega
    simp [getElem?_insertIdx _ _ _ _ hp, h1, h2]

/-- Inserting 30 at index 1 of the layout of 10, 20: the children are 10, 30,
20. -/
theorem insert_at_within_shifts_the_tail_witness :
    (LinearLayout.ctor [10, 20]).aligned ∧
    (1 : Nat) < (LinearLayout.ctor [10, 20]).children.length ∧
    (insert_at (LinearLayout.ctor [10, 20]) 1 30 (SizePolicy.fixed 1) FocusPolicy.Tab).children[1]?
      = some { data := 30, focus_policy := FocusPolicy.Tab } ∧
    (insert_at (LinearLayout.ctor [10, 20]) 1 30 (SizePolicy.fixed 1)
        FocusPolicy.Tab).children.map Widget.data = [10, 30, 20] :=
  ⟨by decide, by decide,
   (insert_at_within_shifts_the_tail (LinearLayout.ctor [10, 20]) (by decide) 1 (by decide) 30
      (SizePolicy.fixed 1) FocusPolicy.Tab).2.2.1,
   by decide⟩

/-- C19. On a layout with `n` children, the two sequences in lockstep, and an
index `i < n`, `remove_at` returns the widget that was at position `i` and
leaves each sequence with exactly position `i` deleted: length `n - 1`, the
entries below `i` where they were, and an entry formerly at `j + 1 > i` now at
`j`. `remove` of the child in slot `i` does the same. -/
theorem remove_at_within_deletes_the_position {α : Type} (layout : LinearLayout α)
    (h : layout.aligned) (i : Nat) (hi : i < layout.children.length) :
    (remove_at layout i).1 = .ok layout.children[i] ∧
    (remove_at layout i).2.children = layout.children.eraseIdx i ∧
    (remove_at layout i).2.size_policies = layout.size_policies.eraseIdx i ∧
    (remove_at layout i).2.children.length = layout.children.length - 1 ∧
    (remove_at layout i).2.size_policies.length = layout.children.length - 1 ∧
    (∀ j, j < i →
      (remove_at layout i).2.children[j]? = layout.children[j]? ∧
      (remove_at layout i).2.size_policies[j]? = layout.size_policies[j]?) ∧
    (∀ j, i ≤ j →
      (remove_at layout i).2.children[j]? = layout.children[j + 1]? ∧
      (remove_at layout i).2.size_policies[j]? = layout.size_policies[j + 1]?) ∧
    remove layout (WidgetRef.slot i) = remove_at layout i := by
  unfold LinearLayout.aligned at h
  have hp : i < layout.size_policies.length := by omega
  have e : remove_at layout i = (.ok layout.children[i],
      { size_policies := layout.size_policies.eraseIdx i
        children := layout.children.eraseIdx i }) := by
    unfold remove_at
    rw [dif_neg (Nat.not_le.mpr hi)]
  have e2 : remove layout (WidgetRef.slot i) = remove_at layout i := by
    rw [e]
    unfold remove
    rw [find_if_slot layout i hi]
    rfl
  rw [e2, e]
  refine ⟨rfl, rfl, rfl, List.length_eraseIdx_of_lt hi, ?_, fun j hj => ⟨?_, ?_⟩,
    fun j hj => ⟨?_, ?_⟩, rfl⟩
  · show (layout.size_policies.eraseIdx i).length = layout.children.length - 1
    rw [List.length_eraseIdx_of_lt hp, h]
  · exact List.getElem?_eraseIdx_of_lt _ _ _ hj
  · exact List.getElem?_eraseIdx_of_lt _ _ _ hj
  · exact List.getElem?_eraseIdx_of_ge _ _ _ hj
  · exact List.getElem?_eraseIdx_of_ge _ _ _ hj

/-- Removing at index 0 of the layout of 10, 20: the widget 10 is returned and
the widget 20 remains. -/
theorem remove_at_within_deletes_the_position_witness :
    (LinearLayout.ctor [10, 20]).aligned ∧
    (0 : Nat) < (LinearLayout.ctor [10, 20]).children.length ∧
    (remove_at (LinearLayout.ctor [10, 20]) 0).1
      = .ok { data := 10, focus_policy := FocusPolicy.None } ∧
    (remove_at (LinearLayout.ctor [10, 20]) 0).2.children.map Widget.data = [20] :=
  ⟨by decide, by decide,
   (remove_at_within_deletes_the_position (LinearLayout.ctor [10, 20]) (by decide) 0
      (by decide)).1,
   by decide⟩

end ox.widgets

namespace ox

/-! ## Bordered: the area of the child -/

theorem wrap_int_of_int (v : Int) (h1 : -2147483648 ≤ v) (h2 : v ≤ 2147483647) :
    wrap_int v = v := by
  unfold wrap_int
  omega

/-- C17. For every new area whose width and height are `int` values from
which 2 can be subtracted (`INT_MIN + 2` at least), widths and heights of 0
and 1 and negative ones included, `Bordered::resize` gives its child the
origin (1, 1) and the size `(max(0, width - 2), max(0, height - 2))`, neither
dimension negative, and calls the child's own resize with exactly that size;
a child that stores the size it is given ends with that origin and size. -/
theorem bordered_resize_insets_the_child {σ : Type}
    (child_resize : ChildWidget σ → Area → ChildWidget σ) (b : Bordered σ) (new_size : Area)
    (hw : -2147483646 ≤ new_size.width ∧ new_size.width ≤ 2147483647)
    (hh : -2147483646 ≤ new_size.height ∧ new_size.height ≤ 2147483647) :
    (b.resize child_resize new_size).child
      = child_resize
          { at_ := { x := 1, y := 1 }
            size := { width := max 0 (new_size.width - 2), height := max 0 (new_size.height - 2) }
            data := b.child.data }
          { width := max 0 (new_size.width - 2), height := max 0 (new_size.height - 2) } ∧
    0 ≤ max 0 (new_size.width - 2) ∧ 0 ≤ max 0 (new_size.height - 2) ∧
    (b.resize child_resize new_size).border.box.size = new_size ∧
    (b.resize store_size new_size).child.at_ = { x := 1, y := 1 } ∧
    (b.resize store_size new_size).child.size
      = { width := max 0 (new_size.width - 2), height := max 0 (new_size.height - 2) } := by
  have e1 : wrap_int (new_size.width - 2) = new_size.width - 2 :=
    wrap_int_of_int _ (by omega) (by omega)
  have e2 : wrap_int (new_size.height - 2) = new_size.height - 2 :=
    wrap_int_of_int _ (by omega) (by omega)
  refine ⟨?_, le_max_left _ _, le_max_left _ _, rfl, rfl, ?_⟩
  · simp only [Bordered.resize, e1, e2]
  · simp only [Bordered.resize, store_size, e1, e2]

/-- A new area of width 1 and height 5: the child gets the origin (1, 1) and
the size (0, 3). -/
theorem bordered_resize_insets_the_child_witness :
    (Bordered.resize store_size
      ({ child := { at_ := { x := 0, y := 0 }, size := { width := 9, height := 9 }, data := () }
         border := { box := { size := { width := 9, height := 9 } }
                     label := { text := [], align := Align.Left } } } : Bordered Unit)
      { width := 1, height := 5 }).child
      = { at_ := { x := 1, y := 1 }, size := { width := 0, height := 3 }, data := () } :=
  (bordered_resize_insets_the_child store_size
    ({ child := { at_ := { x := 0, y := 0 }, size := { width := 9, height := 9 }, data := () }
       border := { box := { size := { width := 9, height := 9 } }
                   label := { text := [], align := Align.Left } } } : Bordered Unit)
    { width := 1, height := 5 } (by decide) (by decide)).1

end ox

namespace cppurses.layout
namespace Selecting

/-! ## Selecting: which transition a key press applies -/

theorem contains_iff (key : Nat) (codes : List Nat) : contains key codes = true ↔ key ∈ codes := by
  unfold contains
  simp [List.any_eq_true]

theorem contains_eq_false_iff (key : Nat) (codes : List Nat) :
    contains key codes = false ↔ key ∉ codes := by
  rw [← contains_iff, Bool.not_eq_true]

/-- C20. For all four key sets and every key, `key_press_event` applies the
transition of the first set that holds the key, in the order
increment-select, decrement-select, increment-scroll, decrement-scroll, and
only that one; a key that no set holds leaves the state, the selected index
and the viewport offset included, as it is. -/
theorem key_press_applies_first_matching_set (g : Geometry) (fuel : Nat) (s : Selecting)
    (key : Nat) :
    (key ∈ s.increment_selection_keys_ →
      s.key_press_event g fuel key = s.increment_selected_and_scroll_if_necessary g fuel) ∧
    (key ∉ s.increment_selection_keys_ → key ∈ s.decrement_selection_keys_ →
      s.key_press_event g fuel key = s.decrement_selected_and_scroll_if_necessary g) ∧
    (key ∉ s.increment_selection_keys_ → key ∉ s.decrement_selection_keys_ →
      key ∈ s.increment_scroll_keys_ →
      s.key_press_event g fuel key = s.increment_offset_and_increment_selected g) ∧
    (key ∉ s.increment_selection_keys_ → key ∉ s.decrement_selection_keys_ →
      key ∉ s.increment_scroll_keys_ → key ∈ s.decrement_scroll_keys_ →
      s.key_press_event g fuel key = s.decrement_offset_and_decrement_selected g) ∧
    (key ∉ s.increment_selection_keys_ → key ∉ s.decrement_selection_keys_ →
      key ∉ s.increment_scroll_keys_ → key ∉ s.decrement_scroll_keys_ →
      s.key_press_event g fuel key = .ok s) := by
  refine ⟨fun h1 => ?_, fun h1 h2 => ?_, fun h1 h2 h3 => ?_, fun h1 h2 h3 h4 => ?_,
    fun h1 h2 h3 h4 => ?_⟩
  · simp [key_press_event, (contains_iff _ _).mpr h1]
  · simp [key_press_event, (contains_eq_false_iff _ _).mpr h1, (contains_iff _ _).mpr h2]
  · simp [key_press_event, (contains_eq_false_iff _ _).mpr h1,
      (contains_eq_false_iff _ _).mpr h2, (contains_iff _ _).mpr h3]
  · simp [key_press_event, (contains_eq_false_iff _ _).mpr h1,
      (contains_eq_false_iff _ _).mpr h2, (contains_eq_false_iff _ _).mpr h3,
      (contains_iff _ _).mpr h4]
  · simp [key_press_event, (contains_eq_false_iff _ _).mpr h1,
      (contains_eq_false_iff _ _).mpr h2, (contains_eq_false_iff _ _).mpr h3,
      (contains_eq_false_iff _ _).mpr h4, pure, Except.pure]

/-- The key 1 held by the increment-select set and by the decrement-select
set: the press is the increment-select transition and moves the selected index
from 1 to 2. A key held by no set changes nothing. -/
theorem key_press_applies_first_matching_set_witness :
    1 ∈ overlapping.increment_selection_keys_ ∧
    1 ∈ overlapping.decrement_selection_keys_ ∧
    overlapping.key_press_event rows 1 1
      = overlapping.increment_selected_and_scroll_if_necessary rows 1 ∧
    (overlapping.key_press_event rows 1 1).map (fun s' => s'.selected_) = .ok 2 ∧
    overlapping.key_press_event rows 1 9 = .ok overlapping :=
  ⟨by decide, by decide,
   (key_press_applies_first_matching_set rows 1 overlapping 1).1 (by decide),
   by decide,
   (key_press_applies_first_matching_set rows 1 overlapping 9).2.2.2.2 (by decide) (by decide)
     (by decide) (by decide)⟩

end Selecting
end cppurses.layout

namespace cppurses.layout
namespace Selecting

/-! ## Selecting: decrement-select, and the focus, enable and disable events -/

theorem modify_keeps_enabled (f : Child → Child) (hf : ∀ c, (f c).enabled = c.enabled)
    (n : Nat) (l : List Child) :
    (l.modify f n).map Child.enabled = l.map Child.enabled := by
  apply List.ext_getElem?
  intro m
  simp only [List.getElem?_map, List.getElem?_modify]
  cases l[m]? with
  | none => rfl
  | some a => by_cases e : n = m <;> simp [e, hf]

theorem decrement_selected_keeps_enabled (s s1 : Selecting) (h : s.selected_ < s.child_count)
    (e : s.decrement_selected = .ok s1) :
    s1.children.map Child.enabled = s.children.map Child.enabled := by
  rw [decrement_selected_eq s h] at e
  cases e
  split
  · rfl
  · show ((s.children.modify Child.unselect s.selected_).modify Child.select
      (s.selected_ - 1)).map Child.enabled = _
    rw [modify_keeps_enabled Child.select (fun _ => rfl),
      modify_keeps_enabled Child.unselect (fun _ => rfl)]

/-- Whether the selected child is enabled depends on the selected index and on
the enabled flags of the children only. -/
theorem selected_is_enabled_congr (s t : Selecting) (hsel : s.selected_ = t.selected_)
    (hen : s.children.map Child.enabled = t.children.map Child.enabled) :
    s.selected_is_enabled = t.selected_is_enabled := by
  have hl : s.children.length = t.children.length := by
    simpa using congrArg List.length hen
  by_cases h : s.selected_ < s.child_count
  · have ht : t.selected_ < t.child_count := by
      unfold child_count at *
      omega
    have hs1 : s.selected_ < s.children.length := h
    have ht1 : t.selected_ < t.children.length := ht
    have h1 : (s.children.map Child.enabled)[s.selected_]?
        = (t.children.map Child.enabled)[t.selected_]? := by rw [hen, hsel]
    rw [List.getElem?_map, List.getElem?_map, List.getElem?_eq_getElem hs1,
      List.getElem?_eq_getElem ht1] at h1
    simp only [selected_is_enabled, selected_child_of_valid s h, selected_child_of_valid t ht]
    simpa using h1
  · have ht : ¬ t.selected_ < t.child_count := by
      unfold child_count at *
      omega
    have e1 : s.selected_child = .error (.runtime_error s.selected_ s.child_count) := by
      unfold selected_child
      rw [dif_pos (Nat.le_of_not_lt h)]
    have e2 : t.selected_child = .error (.runtime_error t.selected_ t.child_count) := by
      unfold selected_child
      rw [dif_pos (Nat.le_of_not_lt ht)]
    simp only [selected_is_enabled, e1, e2]

/-- C23. On a non-empty layout with a valid selected index, a
decrement-select key press returns. The selected index goes down by one when
it is positive and stays when it is 0. The viewport offset goes down by
exactly one when the child then selected is not enabled as the press finds it
(outside the viewport) and the offset is positive, and stays otherwise. -/
theorem decrement_select_moves_selection_then_offset (g : Geometry) (fuel : Nat) (s : Selecting)
    (key : Nat) (hne : s.child_count ≠ 0) (hsel : s.selected_ < s.child_count)
    (k1 : contains key s.increment_selection_keys_ = false)
    (k2 : contains key s.decrement_selection_keys_ = true) :
    ∃ s', s.key_press_event g fuel key = .ok s' ∧
      (0 < s.selected_ → s'.selected_ + 1 = s.selected_) ∧
      (s.selected_ = 0 → s'.selected_ = 0) ∧
      (selected_is_enabled { s with selected_ := s'.selected_ } = false → 0 < s.offset →
        s'.offset + 1 = s.offset) ∧
      (selected_is_enabled { s with selected_ := s'.selected_ } = true →
        s'.offset = s.offset) ∧
      (s.offset = 0 → s'.offset = 0) ∧
      s'.child_count = s.child_count := by
  have e : s.key_press_event g fuel key = s.decrement_selected_and_scroll_if_necessary g := by
    simp [key_press_event, k1, k2]
  rw [e]
  obtain ⟨s1, e1, v1, c1, o1, n1⟩ := decrement_selected_valid s hsel
  have hne1 : s1.child_count ≠ 0 := by rw [c1]; exact hne
  have hfound : selected_is_enabled { s with selected_ := s1.selected_ }
      = s1.selected_is_enabled :=
    selected_is_enabled_congr _ s1 rfl (decrement_selected_keeps_enabled s s1 hsel e1).symm
  unfold decrement_selected_and_scroll_if_necessary
  rw [e1]
  simp only [bind, Except.bind, selected_child_of_valid s1 v1]
  by_cases en : s1.children[s1.selected_].enabled = true
  · have hen : s1.selected_is_enabled = true := by
      simp [selected_is_enabled, selected_child_of_valid s1 v1, en]
    refine ⟨s1, by simp [en, pure, Except.pure], fun _ => by omega, fun _ => by omega,
      fun hf => ?_, fun _ => o1, fun h0 => by omega, c1⟩
    rw [hfound, hen] at hf
    cases hf
  · have hdis : s1.selected_is_enabled = false := by
      simp only [selected_is_enabled, selected_child_of_valid s1 v1]
      simpa using en
    have ho := decrement_offset_offset g s1 hne1
    have hs2 : (s1.decrement_offset g).selected_ = s1.selected_ := decrement_offset_selected g s1
    refine ⟨s1.decrement_offset g, by simp [en, pure, Except.pure], ?_, ?_, ?_, ?_, ?_, ?_⟩
    · intro _; rw [hs2]; omega
    · intro _; rw [hs2]; omega
    · intro _ hpos; rw [ho, o1]; omega
    · intro ht; rw [hs2, hfound, hdis] at ht; cases ht
    · intro h0; rw [ho, o1, h0]
    · rw [decrement_offset_child_count]; exact c1

/-- Three children shown from offset 2 on, the third one selected: the
decrement-select key selects the second child, which is outside the viewport,
and moves the offset from 2 to 1. -/
theorem decrement_select_moves_selection_then_offset_witness :
    (sample 3 2 2 3).child_count ≠ 0 ∧
    (sample 3 2 2 3).selected_ < (sample 3 2 2 3).child_count ∧
    ((sample 3 2 2 3).key_press_event rows 0 2).map (fun s' => (s'.selected_, s'.offset))
      = .ok (1, 1) ∧
    selected_is_enabled { sample 3 2 2 3 with selected_ := 1 } = false ∧
    ∃ s', (sample 3 2 2 3).key_press_event rows 0 2 = .ok s' ∧ s'.selected_ + 1 = 2 :=
  ⟨by decide, by decide, by decide, by decide,
    match decrement_select_moves_selection_then_offset rows 0 (sample 3 2 2 3) 2 (by decide)
      (by decide) (by decide) (by decide) with
    | ⟨s', e, h, _⟩ => ⟨s', e, h (by decide)⟩⟩

/-- The index that `find_bottom_row` returns lies in the window from the
viewport offset to the last child, when the offset is below the child
count. -/
theorem find_bottom_row_in_window (s : Selecting) (h : s.offset < s.child_count) :
    s.offset ≤ s.find_bottom_row ∧ s.find_bottom_row < s.child_count := by
  unfold find_bottom_row
  simp only [child_offset]
  split
  · rename_i i hf
    have hm := List.mem_of_find?_eq_some hf
    rw [List.mem_range'_1] at hm
    omega
  · exact ⟨le_refl _, h⟩

theorem selected_child_select_flags (s : Selecting) (h : s.selected_ < s.child_count) :
    ∃ s', s.selected_child_select = .ok s' ∧ s'.selected_ = s.selected_ ∧
      s'.offset = s.offset ∧ s'.child_count = s.child_count ∧
      ∃ c, s'.selected_child = .ok c ∧ c.selected = true := by
  have hlen : s.selected_ < s.children.length := h
  refine ⟨{ s with children := s.children.modify Child.select s.selected_ }, ?_, rfl, rfl, ?_, ?_⟩
  · simp [selected_child_select, child_count, hlen]
  · simp [child_count]
  · refine ⟨_, selected_child_of_valid _ (by simpa [child_count] using hlen), ?_⟩
    simp [List.getElem_modify_eq, Child.select]

theorem selected_child_unselect_flags (s : Selecting) (h : s.selected_ < s.child_count) :
    ∃ s', s.selected_child_unselect = .ok s' ∧ s'.selected_ = s.selected_ ∧
      s'.offset = s.offset ∧ s'.child_count = s.child_count ∧
      ∃ c, s'.selected_child = .ok c ∧ c.selected = false := by
  have hlen : s.selected_ < s.children.length := h
  refine ⟨{ s with children := s.children.modify Child.unselect s.selected_ }, ?_, rfl, rfl, ?_,
    ?_⟩
  · simp [selected_child_unselect, child_count, hlen]
  · simp [child_count]
  · refine ⟨_, selected_child_of_valid _ (by simpa [child_count] using hlen), ?_⟩
    simp [List.getElem_modify_eq, Child.unselect]

/-- C25. On a non-empty layout with a valid selected index, whose viewport
offset is at most `child_count - 1`: `focus_in_event` returns with the child
at the selected index flagged selected, the index unchanged when the selected
child is enabled and re-resolved to a valid index when it is not;
`disable_event` returns with the child at the selected index flagged
unselected; `focus_out_event` does the same when `unselect_on_focus_out` is
true and changes nothing when it is false; and none of focus-out, disable and
enable changes the selected index or the viewport offset. -/
theorem focus_enable_disable_events_flag_the_selected_child (s : Selecting)
    (hne : s.child_count ≠ 0) (hsel : s.selected_ < s.child_count)
    (hoffset : s.offset ≤ s.child_count - 1) :
    (s.selected_is_enabled = true → ∃ s', s.focus_in_event = .ok s' ∧
      s'.selected_ = s.selected_ ∧ ∃ c, s'.selected_child = .ok c ∧ c.selected = true) ∧
    (∃ s', s.focus_in_event = .ok s' ∧ s'.selected_ < s'.child_count ∧
      s'.offset = s.offset ∧ s'.child_count = s.child_count ∧
      ∃ c, s'.selected_child = .ok c ∧ c.selected = true) ∧
    (∃ s', s.disable_event = .ok s' ∧ s'.selected_ = s.selected_ ∧ s'.offset = s.offset ∧
      ∃ c, s'.selected_child = .ok c ∧ c.selected = false) ∧
    (∃ s', s.focus_out_event true = .ok s' ∧ s'.selected_ = s.selected_ ∧
      s'.offset = s.offset ∧ ∃ c, s'.selected_child = .ok c ∧ c.selected = false) ∧
    s.focus_out_event false = .ok s ∧
    (∀ has_focus : Bool, ∃ s', s.enable_event has_focus = .ok s' ∧
      s'.selected_ = s.selected_ ∧ s'.offset = s.offset) := by
  have hoff : s.offset < s.child_count := by omega
  have hlen : s.selected_ < s.children.length := hsel
  have focus_enabled : s.selected_is_enabled = true → ∃ s', s.focus_in_event = .ok s' ∧
      s'.selected_ = s.selected_ ∧ s'.selected_ < s'.child_count ∧
      s'.offset = s.offset ∧ s'.child_count = s.child_count ∧
      ∃ c, s'.selected_child = .ok c ∧ c.selected = true := by
    intro hen
    have hc : s.children[s.selected_].enabled = true := by
      simpa [selected_is_enabled, selected_child_of_valid s hsel] using hen
    have hr : s.reset_selected_if_necessary = .ok s := by
      simp [reset_selected_if_necessary, hne, selected_child_of_valid s hsel, hc, bind,
        Except.bind, pure, Except.pure]
    obtain ⟨s', e, n, o, c, f⟩ := selected_child_select_flags s hsel
    refine ⟨s', ?_, n, by rw [n, c]; exact hsel, o, c, f⟩
    simp [focus_in_event, hr, hne, e, bind, Except.bind]
  refine ⟨fun hen => ?_, ?_, ?_, ?_, ?_, fun has_focus => ?_⟩
  · obtain ⟨s', e, n, -, -, -, f⟩ := focus_enabled hen
    exact ⟨s', e, n, f⟩
  · by_cases hen : s.selected_is_enabled = true
    · obtain ⟨s', e, -, v, o, c, f⟩ := focus_enabled hen
      exact ⟨s', e, v, o, c, f⟩
    · have hc : s.children[s.selected_].enabled = false := by
        simpa [selected_is_enabled, selected_child_of_valid s hsel] using hen
      obtain ⟨s1, e1, n1, c1, o1, -, -⟩ := set_selected_returns s s.find_bottom_row
        (find_bottom_row_in_window s hoff).2
      have hr : s.reset_selected_if_necessary = .ok s1 := by
        simp [reset_selected_if_necessary, hne, selected_child_of_valid s hsel, hc, bind,
          Except.bind, e1]
      have v1 : s1.selected_ < s1.child_count := by
        rw [n1, c1]; exact (find_bottom_row_in_window s hoff).2
      have hne1 : s1.child_count ≠ 0 := by rw [c1]; exact hne
      obtain ⟨s', e, n, o, c, f⟩ := selected_child_select_flags s1 v1
      refine ⟨s', ?_, by rw [n, c]; exact v1, by rw [o, o1], by rw [c, c1], f⟩
      simp [focus_in_event, hr, hne1, e, bind, Except.bind]
  · obtain ⟨s', e, n, o, -, f⟩ := selected_child_unselect_flags s hsel
    exact ⟨s', by simp [disable_event, hne, e], n, o, f⟩
  · obtain ⟨s', e, n, o, -, f⟩ := selected_child_unselect_flags s hsel
    exact ⟨s', by simp [focus_out_event, hne, e], n, o, f⟩
  · simp [focus_out_event, pure, Except.pure]
  · cases has_focus with
    | false => exact ⟨s, by simp [enable_event, pure, Except.pure], rfl, rfl⟩
    | true =>
      obtain ⟨s', e, n, o, -, -⟩ := selected_child_select_flags s hsel
      exact ⟨s', by simp [enable_event, hne, e], n, o⟩

/-- Three visible children with the second one selected: focus-in flags it
selected, and the disable event leaves the selected index 1 and the offset 0.
Three children shown from offset 1 on with the first one selected, which is
not enabled: focus-in re-resolves the selection to the second child. -/
theorem focus_enable_disable_events_flag_the_selected_child_witness :
    (sample 3 0 1 3).child_count ≠ 0 ∧
    (sample 3 0 1 3).selected_ < (sample 3 0 1 3).child_count ∧
    (sample 3 0 1 3).offset ≤ (sample 3 0 1 3).child_count - 1 ∧
    (sample 3 0 1 3).selected_is_enabled = true ∧
    (∃ s', (sample 3 0 1 3).focus_in_event = .ok s' ∧ s'.selected_ = 1 ∧
      ∃ c, s'.selected_child = .ok c ∧ c.selected = true) ∧
    (sample 3 0 1 3).focus_out_event false = .ok (sample 3 0 1 3) ∧
    (sample 3 1 0 3).selected_is_enabled = false ∧
    ((sample 3 1 0 3).focus_in_event).map (fun s' => (s'.selected_, flagged s'))
      = .ok (1, [1]) :=
  ⟨by decide, by decide, by decide, by decide,
   (focus_enable_disable_events_flag_the_selected_child (sample 3 0 1 3) (by decide)
      (by decide) (by decide)).1 (by decide),
   (focus_enable_disable_events_flag_the_selected_child (sample 3 0 1 3) (by decide)
      (by decide) (by decide)).2.2.2.2.1,
   by decide, by decide⟩

end Selecting
end cppurses.layout

namespace cppurses.layout
namespace Selecting

/-! ## Selecting: the scroll loop of increment-select, and resize -/

theorem update_geometry_ids (g : Geometry) (s : Selecting) :
    (update_geometry g s).children.map Child.id = s.children.map Child.id := by
  apply List.ext_getElem?
  intro m
  simp only [update_geometry, List.getElem?_map, List.getElem?_enum]
  cases s.children[m]? <;> rfl

theorem update_geometry_enabled (g : Geometry) (s : Selecting) (k : Nat)
    (h : k < (update_geometry g s).children.length) :
    (update_geometry g s).children[k].enabled
      = g s.area s.offset (s.children.map Child.id) k := by
  simp [update_geometry]

theorem increment_offset_le (g : Geometry) (s : Selecting) :
    s.offset ≤ (s.increment_offset g).offset := by
  by_cases h0 : s.child_count = 0
  · have e : s.increment_offset g = s := by simp [increment_offset, h0]
    rw [e]
  · rw [increment_offset_offset g s h0]
    split <;> omega

theorem increment_offset_bound (g : Geometry) (s : Selecting)
    (h : s.offset ≤ s.child_count - 1) :
    (s.increment_offset g).offset ≤ (s.increment_offset g).child_count - 1 := by
  rw [increment_offset_child_count]
  by_cases h0 : s.child_count = 0
  · have e : s.increment_offset g = s := by simp [increment_offset, h0]
    rw [e]; exact h
  · rw [increment_offset_offset g s h0]
    split <;> omega

theorem increment_offset_area_ids (g : Geometry) (s : Selecting) :
    (s.increment_offset g).area = s.area ∧
    (s.increment_offset g).children.map Child.id = s.children.map Child.id := by
  unfold increment_offset
  simp only []
  split
  · exact ⟨rfl, rfl⟩
  · split
    · exact ⟨rfl, update_geometry_ids g _⟩
    · exact ⟨rfl, rfl⟩

/-- A state the scroll loop returns has the selected index and the children
count it started with, an offset that is not smaller, still at most
`child_count - 1` if it was so, and an enabled selected child. -/
theorem scroll_loop_returned_state (g : Geometry) (fuel : Nat) :
    ∀ s s' : Selecting, s.selected_ < s.child_count → scroll_loop g fuel s = .ok s' →
      s'.selected_ = s.selected_ ∧ s'.child_count = s.child_count ∧ s.offset ≤ s'.offset ∧
      (s.offset ≤ s.child_count - 1 → s'.offset ≤ s'.child_count - 1) ∧
      s'.selected_is_enabled = true := by
  induction fuel with
  | zero =>
    intro s s' h hs
    unfold scroll_loop at hs
    rw [selected_child_of_valid s h] at hs
    by_cases e : s.children[s.selected_].enabled = true
    · simp [bind, Except.bind, e, pure, Except.pure] at hs
      subst hs
      exact ⟨rfl, rfl, le_refl _, fun hb => hb,
        by simp [selected_is_enabled, selected_child_of_valid s h, e]⟩
    · simp [bind, Except.bind, e] at hs
  | succ n ih =>
    intro s s' h hs
    unfold scroll_loop at hs
    rw [selected_child_of_valid s h] at hs
    by_cases e : s.children[s.selected_].enabled = true
    · simp [bind, Except.bind, e, pure, Except.pure] at hs
      subst hs
      exact ⟨rfl, rfl, le_refl _, fun hb => hb,
        by simp [selected_is_enabled, selected_child_of_valid s h, e]⟩
    · have hs2 : scroll_loop g n (update_geometry g (s.increment_offset g)) = .ok s' := by
        simpa [bind, Except.bind, e] using hs
      have hsel : (update_geometry g (s.increment_offset g)).selected_ = s.selected_ := by
        rw [update_geometry_selected, increment_offset_selected]
      have hc : (update_geometry g (s.increment_offset g)).child_count = s.child_count := by
        rw [update_geometry_child_count, increment_offset_child_count]
      have ho : (update_geometry g (s.increment_offset g)).offset = (s.increment_offset g).offset := rfl
      obtain ⟨i1, i2, i3, i4, i5⟩ := ih _ s' (by rw [hsel, hc]; exact h) hs2
      refine ⟨by rw [i1, hsel], by rw [i2, hc], ?_, fun hb => ?_, i5⟩
      · rw [ho] at i3
        exact le_trans (increment_offset_le g s) i3
      · apply i4
        rw [ho, hc, ← increment_offset_child_count g s]
        exact increment_offset_bound g s hb

/-- C21. On a non-empty layout with `selected_index + 1 < child_count`, whose
viewport offset is at most `child_count - 1`, an increment-select key press
never reaches the failure of `selected_child()`, and every state it returns
has the selected index `selected_index + 1`, a viewport offset that did not
decrease and is at most `child_count - 1`, and the newly selected child
enabled. The press returns as soon as the scroll loop meets its exit
condition within the iteration bound. -/
theorem increment_select_scrolls_into_view (g : Geometry) (fuel : Nat) (s : Selecting)
    (key : Nat) (_hne : s.child_count ≠ 0) (hnext : s.selected_ + 1 < s.child_count)
    (hoffset : s.offset ≤ s.child_count - 1)
    (hkey : contains key s.increment_selection_keys_ = true) :
    (∀ s', s.key_press_event g fuel key = .ok s' →
      s'.selected_ = s.selected_ + 1 ∧ s.offset ≤ s'.offset ∧
      s'.selected_is_enabled = true ∧ s'.child_count = s.child_count ∧
      s'.offset ≤ s'.child_count - 1) ∧
    (∀ a b, s.key_press_event g fuel key ≠ .error (.runtime_error a b)) ∧
    (∀ s1 n, s.increment_selected = .ok s1 → n ≤ fuel →
      selected_is_enabled (scroll_steps g n s1) = true →
      ∃ s', s.key_press_event g fuel key = .ok s') := by
  have hsel : s.selected_ < s.child_count := by omega
  obtain ⟨s1, e1, v1, c1, o1, n1⟩ := increment_selected_valid s hsel
  rw [if_pos hnext] at n1
  have hk : s.key_press_event g fuel key = scroll_loop g fuel s1 := by
    simp [key_press_event, hkey, increment_selected_and_scroll_if_necessary, e1, bind,
      Except.bind]
  rw [hk]
  refine ⟨fun s' hs' => ?_, fun a b hab => ?_, fun t n ht hn hen => ?_⟩
  · obtain ⟨i1, i2, i3, i4, i5⟩ := scroll_loop_returned_state g fuel s1 s' v1 hs'
    refine ⟨by rw [i1, n1], by rw [← o1]; exact i3, i5, by rw [i2, c1], ?_⟩
    apply i4
    rw [o1, c1]
    exact hoffset
  · rcases scroll_loop_valid g fuel s1 v1 with h1 | ⟨t, h1, -, -⟩
    · rw [h1] at hab; cases hab
    · rw [h1] at hab; cases hab
  · rw [e1] at ht
    cases ht
    exact scroll_loop_returns g fuel s1 n v1 hn hen

/-- Five one-row children in a viewport of three rows, the third child
selected: the increment-select key selects the fourth child and scrolls the
offset from 0 to 1, where that child is enabled. -/
theorem increment_select_scrolls_into_view_witness :
    (sample 5 0 2 3).child_count ≠ 0 ∧
    (sample 5 0 2 3).selected_ + 1 < (sample 5 0 2 3).child_count ∧
    ((sample 5 0 2 3).key_press_event rows 5 1).map
      (fun s' => (s'.selected_, s'.offset, s'.selected_is_enabled)) = .ok (3, 1, true) ∧
    (sample 5 0 2 3).offset ≤ (sample 5 0 2 3).child_count - 1 ∧
    ∃ s', (sample 5 0 2 3).key_press_event rows 5 1 = .ok s' ∧ s'.selected_ = 3 ∧
      s'.selected_is_enabled = true ∧ s'.offset ≤ s'.child_count - 1 :=
  have h := increment_select_scrolls_into_view rows 5 (sample 5 0 2 3) 1 (by decide) (by decide)
    (by decide) (by decide)
  ⟨by decide, by decide, by decide, by decide,
    match h.2.2 _ 1 (increment_selected_eq (sample 5 0 2 3) (by decide)) (by decide)
      (by decide) with
    | ⟨s', hs'⟩ => ⟨s', hs', (h.1 s' hs').1, (h.1 s' hs').2.2.1, (h.1 s' hs').2.2.2.2⟩⟩

/-- When the geometry never enables the position of the selected child, and
that child is not enabled now, the scroll loop is still running at every
iteration bound. -/
theorem scroll_loop_never_returns (g : Geometry) (area : Area) (ids : List Nat) (k : Nat)
    (hg : ∀ offset, g area offset ids k = false) (fuel : Nat) :
    ∀ s : Selecting, s.area = area → s.children.map Child.id = ids → s.selected_ = k →
      k < s.child_count → s.selected_is_enabled = false →
      scroll_loop g fuel s = .error .running := by
  induction fuel with
  | zero =>
    intro s _ _ hk hv hdis
    have hv' : s.selected_ < s.child_count := by rw [hk]; exact hv
    have e : s.children[s.selected_].enabled = false := by
      simpa [selected_is_enabled, selected_child_of_valid s hv'] using hdis
    unfold scroll_loop
    simp [selected_child_of_valid s hv', bind, Except.bind, e]
  | succ n ih =>
    intro s ha hi hk hv hdis
    have hv' : s.selected_ < s.child_count := by rw [hk]; exact hv
    have e : s.children[s.selected_].enabled = false := by
      simpa [selected_is_enabled, selected_child_of_valid s hv'] using hdis
    have hc : (update_geometry g (s.increment_offset g)).child_count = s.child_count := by
      rw [update_geometry_child_count, increment_offset_child_count]
    have hs : (update_geometry g (s.increment_offset g)).selected_ = k := by
      rw [update_geometry_selected, increment_offset_selected, hk]
    have hv2 : (update_geometry g (s.increment_offset g)).selected_
        < (update_geometry g (s.increment_offset g)).child_count := by rw [hs, hc]; exact hv
    have hids : (update_geometry g (s.increment_offset g)).children.map Child.id = ids := by
      rw [update_geometry_ids, (increment_offset_area_ids g s).2, hi]
    have hen : (update_geometry g (s.increment_offset g)).selected_is_enabled = false := by
      simp only [selected_is_enabled, selected_child_of_valid _ hv2]
      rw [update_geometry_enabled g (s.increment_offset g) _ hv2, (increment_offset_area_ids g s).1,
        (increment_offset_area_ids g s).2, ha, hi, hs]
      exact hg _
    have := ih (update_geometry g (s.increment_offset g))
      (by rw [← ha, ← (increment_offset_area_ids g s).1]; rfl) hids hs (by rw [hc]; exact hv) hen
    unfold scroll_loop
    simp [selected_child_of_valid s hv', bind, Except.bind, e, this]

/-- C22 at its failing input. Two children in a viewport of zero height, the
first one selected: no child is enabled, and the increment-select key does not
return at any iteration bound. The loop body runs again and again while the
offset stays at `child_count - 1`. -/
theorem increment_select_loops_in_an_empty_viewport (fuel : Nat) :
    (sample 2 0 0 0).child_count ≠ 0 ∧
    (sample 2 0 0 0).selected_ < (sample 2 0 0 0).child_count ∧
    (sample 2 0 0 0).children.map Child.enabled = [false, false] ∧
    (sample 2 0 0 0).key_press_event rows fuel 1 = .error .running ∧
    (scroll_steps rows 1 (sample 2 0 0 0)).offset = 1 ∧
    (scroll_steps rows 7 (sample 2 0 0 0)).offset = 1 := by
  refine ⟨by decide, by decide, by decide, ?_, by decide, by decide⟩
  have e1 := increment_selected_eq (sample 2 0 0 0) (by decide)
  have hk : (sample 2 0 0 0).key_press_event rows fuel 1
      = scroll_loop rows fuel { sample 2 0 0 0 with
          children := ((sample 2 0 0 0).children.modify Child.unselect 0).modify Child.select 1
          selected_ := 1 } := by
    rw [if_neg (by decide)] at e1
    simp only [key_press_event, increment_selected_and_scroll_if_necessary, e1, bind,
      Except.bind]
    rfl
  rw [hk]
  apply scroll_loop_never_returns rows ⟨80, 0⟩ [100, 101] 1
  · intro offset
    simp [rows]
  · rfl
  · decide
  · rfl
  · decide
  · decide

end Selecting
end cppurses.layout

namespace ox

/-! ## Bordered: where the label is painted -/

theorem ascii_glyphs_length (bytes : List Nat) : (ascii_glyphs bytes).length = bytes.length := by
  unfold ascii_glyphs
  exact List.length_map _ _

end ox

namespace cppurses.layout
namespace Selecting

/-! ## Selecting: the viewport offset stays at or below the last child -/

theorem selected_child_select_keeps (s s' : Selecting) (h : s.selected_child_select = .ok s') :
    s'.offset = s.offset ∧ s'.child_count = s.child_count := by
  unfold selected_child_select at h
  split at h
  · cases h
  · cases h
    exact ⟨rfl, by simp [child_count]⟩

theorem selected_child_unselect_keeps (s s' : Selecting)
    (h : s.selected_child_unselect = .ok s') :
    s'.offset = s.offset ∧ s'.child_count = s.child_count := by
  unfold selected_child_unselect at h
  split at h
  · cases h
  · cases h
    exact ⟨rfl, by simp [child_count]⟩

theorem set_selected_keeps (s s' : Selecting) (index : Nat) (h : s.set_selected index = .ok s') :
    s'.offset = s.offset ∧ s'.child_count = s.child_count := by
  unfold set_selected at h
  by_cases hv : s.selected_ < s.child_count
  · rw [if_pos hv] at h
    cases hu : s.selected_child_unselect with
    | error e => rw [hu] at h; cases h
    | ok s1 =>
      rw [hu] at h
      obtain ⟨o1, c1⟩ := selected_child_unselect_keeps s s1 hu
      obtain ⟨o2, c2⟩ := selected_child_select_keeps _ s' h
      exact ⟨by rw [o2]; exact o1, by rw [c2]; exact c1⟩
  · rw [if_neg hv] at h
    obtain ⟨o2, c2⟩ := selected_child_select_keeps _ s' h
    exact ⟨o2, c2⟩

theorem increment_selected_keeps (s s' : Selecting) (h : s.increment_selected = .ok s') :
    s'.offset = s.offset ∧ s'.child_count = s.child_count := by
  unfold increment_selected at h
  split at h
  · cases h; exact ⟨rfl, rfl⟩
  · exact set_selected_keeps s s' _ h

theorem decrement_selected_keeps (s s' : Selecting) (h : s.decrement_selected = .ok s') :
    s'.offset = s.offset ∧ s'.child_count = s.child_count := by
  unfold decrement_selected at h
  split at h
  · cases h; exact ⟨rfl, rfl⟩
  · exact set_selected_keeps s s' _ h

theorem reset_selected_if_necessary_keeps (s s' : Selecting)
    (h : s.reset_selected_if_necessary = .ok s') :
    s'.offset = s.offset ∧ s'.child_count = s.child_count := by
  unfold reset_selected_if_necessary at h
  split at h
  · cases h; exact ⟨rfl, rfl⟩
  · cases hc : s.selected_child with
    | error e => rw [hc] at h; cases h
    | ok c =>
      rw [hc] at h
      by_cases en : c.enabled = true
      · simp only [bind, Except.bind, en, if_true, pure, Except.pure] at h
        cases h; exact ⟨rfl, rfl⟩
      · simp only [bind, Except.bind, en] at h
        exact set_selected_keeps s s' _ h

theorem decrement_offset_bound (g : Geometry) (s : Selecting)
    (h : s.offset ≤ s.child_count - 1) :
    (s.decrement_offset g).offset ≤ (s.decrement_offset g).child_count - 1 := by
  rw [decrement_offset_child_count]
  by_cases h0 : s.child_count = 0
  · have e : s.decrement_offset g = s := by simp [decrement_offset, h0]
    rw [e]; exact h
  · rw [decrement_offset_offset g s h0]
    omega

theorem scroll_loop_bound (g : Geometry) (fuel : Nat) :
    ∀ s s' : Selecting, scroll_loop g fuel s = .ok s' → s.offset ≤ s.child_count - 1 →
      s'.offset ≤ s'.child_count - 1 := by
  induction fuel with
  | zero =>
    intro s s' hs hb
    unfold scroll_loop at hs
    cases hc : s.selected_child with
    | error e => rw [hc] at hs; cases hs
    | ok c =>
      rw [hc] at hs
      by_cases en : c.enabled = true
      · simp [bind, Except.bind, en, pure, Except.pure] at hs
        subst hs; exact hb
      · simp [bind, Except.bind, en] at hs
  | succ n ih =>
    intro s s' hs hb
    unfold scroll_loop at hs
    cases hc : s.selected_child with
    | error e => rw [hc] at hs; cases hs
    | ok c =>
      rw [hc] at hs
      by_cases en : c.enabled = true
      · simp [bind, Except.bind, en, pure, Except.pure] at hs
        subst hs; exact hb
      · have hs2 : scroll_loop g n (update_geometry g (s.increment_offset g)) = .ok s' := by
          simpa [bind, Except.bind, en] using hs
        apply ih _ s' hs2
        have hb2 := increment_offset_bound g s hb
        have hc2 : (update_geometry g (s.increment_offset g)).child_count
            = (s.increment_offset g).child_count := update_geometry_child_count g _
        rw [hc2]
        exact hb2

theorem key_press_event_bound (g : Geometry) (fuel : Nat) (s s' : Selecting) (key : Nat)
    (h : s.key_press_event g fuel key = .ok s') (hb : s.offset ≤ s.child_count - 1) :
    s'.offset ≤ s'.child_count - 1 := by
  unfold key_press_event at h
  split at h
  · unfold increment_selected_and_scroll_if_necessary at h
    cases h1 : s.increment_selected with
    | error e => rw [h1] at h; cases h
    | ok s1 =>
      rw [h1] at h
      obtain ⟨o1, c1⟩ := increment_selected_keeps s s1 h1
      exact scroll_loop_bound g fuel s1 s' h (by rw [o1, c1]; exact hb)
  · split at h
    · unfold decrement_selected_and_scroll_if_necessary at h
      cases h1 : s.decrement_selected with
      | error e => rw [h1] at h; cases h
      | ok s1 =>
        rw [h1] at h
        obtain ⟨o1, c1⟩ := decrement_selected_keeps s s1 h1
        have hb1 : s1.offset ≤ s1.child_count - 1 := by rw [o1, c1]; exact hb
        simp only [bind, Except.bind] at h
        cases hc : s1.selected_child with
        | error e => rw [hc] at h; cases h
        | ok c =>
          rw [hc] at h
          by_cases en : c.enabled = true
          · simp [bind, Except.bind, en, pure, Except.pure] at h
            subst h; exact hb1
          · simp [bind, Except.bind, en, pure, Except.pure] at h
            subst h; exact decrement_offset_bound g s1 hb1
    · split at h
      · unfold increment_offset_and_increment_selected at h
        obtain ⟨o1, c1⟩ := increment_selected_keeps _ s' h
        rw [o1, c1]
        exact increment_offset_bound g s hb
      · split at h
        · unfold decrement_offset_and_decrement_selected at h
          split at h
          · cases h; exact hb
          · obtain ⟨o1, c1⟩ := decrement_selected_keeps _ s' h
            rw [o1, c1]
            exact decrement_offset_bound g s hb
        · cases h; exact hb

theorem after_erase_bound (g : Geometry) (s : Selecting) (children : List Child) :
    (Layout_t_after_erase g s children).offset
      ≤ (Layout_t_after_erase g s children).child_count - 1 := by
  obtain ⟨hc, ho, -⟩ := after_erase_facts g s children
  rw [hc, ho]
  exact min_le_right _ _

theorem erase_index_bound (g : Geometry) (s s' : Selecting) (index : Nat)
    (h : s.erase_index g index = .ok s') : s'.offset ≤ s'.child_count - 1 := by
  unfold erase_index at h
  simp only [] at h
  split at h
  · obtain ⟨o1, c1⟩ := set_selected_keeps _ s' _ h
    rw [o1, c1]
    exact after_erase_bound g s _
  · cases h
    exact after_erase_bound g s _

theorem erase_child_bound (g : Geometry) (s s' : Selecting) (child : Nat)
    (h : s.erase_child g child = .ok s') : s'.offset ≤ s'.child_count - 1 := by
  unfold erase_child at h
  cases hc : s.selected_child with
  | error e => rw [hc] at h; cases h
  | ok c =>
    rw [hc] at h
    simp only [bind, Except.bind] at h
    split at h
    · obtain ⟨o1, c1⟩ := set_selected_keeps _ s' _ h
      rw [o1, c1]
      exact after_erase_bound g s _
    · cases h
      exact after_erase_bound g s _

/-- Every event that a `Selecting` layout handles and returns from keeps the
viewport offset at or below the last child: a layout that starts with
`offset <= child_count - 1`, as the layout with offset 0 does, has it after
every sequence of key presses, erasures, resizes and focus, enable and disable
events. -/
theorem handle_keeps_offset_in_range (g : Geometry) (unselect_on_focus_out : Bool) (fuel : Nat)
    (s s' : Selecting) (e : Event) (h : handle g unselect_on_focus_out fuel s e = .ok s')
    (hb : s.offset ≤ s.child_count - 1) : s'.offset ≤ s'.child_count - 1 := by
  cases e with
  | key_press key => exact key_press_event_bound g fuel s s' key h hb
  | erase_index index => exact erase_index_bound g s s' index h
  | erase_child child => exact erase_child_bound g s s' child h
  | erase_pred pred =>
    simp only [handle] at h
    unfold erase_pred at h
    split at h
    · cases h; exact hb
    · rename_i child _
      cases h1 : s.erase_child g child.id with
      | error e => rw [h1] at h; cases h
      | ok s1 =>
        rw [h1] at h
        cases h
        exact erase_child_bound g s _ _ h1
  | resize new_size =>
    simp only [handle, resize_event] at h
    obtain ⟨o1, c1⟩ := reset_selected_if_necessary_keeps _ s' h
    rw [o1, c1]
    have hc : (Layout_t_resize_event g s new_size).child_count = s.child_count := by
      unfold Layout_t_resize_event
      rw [update_geometry_child_count]; rfl
    rw [hc]
    exact hb
  | focus_in =>
    simp only [handle, focus_in_event] at h
    cases h1 : s.reset_selected_if_necessary with
    | error e => rw [h1] at h; cases h
    | ok s1 =>
      rw [h1] at h
      obtain ⟨o1, c1⟩ := reset_selected_if_necessary_keeps s s1 h1
      simp only [bind, Except.bind] at h
      split at h
      · obtain ⟨o2, c2⟩ := selected_child_select_keeps s1 s' h
        rw [o2, c2, o1, c1]; exact hb
      · cases h; rw [o1, c1]; exact hb
  | focus_out =>
    simp only [handle, focus_out_event] at h
    split at h
    · split at h
      · obtain ⟨o2, c2⟩ := selected_child_unselect_keeps s s' h
        rw [o2, c2]; exact hb
      · cases h; exact hb
    · cases h; exact hb
  | enable has_focus =>
    simp only [handle, enable_event] at h
    split at h
    · obtain ⟨o2, c2⟩ := selected_child_select_keeps s s' h
      rw [o2, c2]; exact hb
    · cases h; exact hb
  | disable =>
    simp only [handle, disable_event] at h
    split at h
    · obtain ⟨o2, c2⟩ := selected_child_unselect_keeps s s' h
      rw [o2, c2]; exact hb
    · cases h; exact hb

theorem handle_all_keeps_offset_in_range (g : Geometry) (unselect_on_focus_out : Bool)
    (fuel : Nat) (es : List Event) :
    ∀ s s' : Selecting, handle_all g unselect_on_focus_out fuel s es = .ok s' →
      s.offset ≤ s.child_count - 1 → s'.offset ≤ s'.child_count - 1 := by
  induction es with
  | nil =>
    intro s s' h hb
    cases h
    exact hb
  | cons e es ih =>
    intro s s' h hb
    unfold handle_all at h
    cases h1 : handle g unselect_on_focus_out fuel s e with
    | error f => rw [h1] at h; cases h
    | ok s1 =>
      rw [h1] at h
      exact ih s1 s' h (handle_keeps_offset_in_range g unselect_on_focus_out fuel s s1 e h1 hb)

end Selecting
end cppurses.layout
